import Mathlib

set_option maxRecDepth 8000

/-!
Verification development for the 2up scraper (`scrape_2up_api_only.py`).

The Python source is shallowly embedded: loosely-typed JSON field values
become the `PyVal` inductive, Python floats are modelled exactly by `ℚ`
(the script only ever parses, compares and re-formats decimal literals, so
binary rounding of IEEE doubles is out of scope and noted where relevant),
Python dicts used in insertion order become association lists, exceptions
caught by the script's `try/except` blocks become `Option`, and the two
unbounded `while True` loops of `scrape_api_only` take an explicit fuel
argument whose exhaustion is reported as a distinguished error value.

All rational arithmetic inside executable definitions is written with
`mkRat`, `Rat.num`, `Rat.den` and integer operations (rather than the
`Field ℚ` operations, some of which are irreducible), so every definition
evaluates by kernel reduction on concrete inputs.
-/

/-- Model of a loosely-typed JSON field value as the Python script sees it:
`None`, a string, an int, or a float (modelled exactly as a rational). -/
inductive PyVal where
  | none
  | str (s : String)
  | int (n : ℤ)
  | float (q : ℚ)
deriving DecidableEq

/-- Python truthiness for the modelled values: `None`, `""`, `0`, `0.0` are
falsy, everything else truthy. -/
def PyVal.truthy : PyVal → Bool
  | .none => false
  | .str s => s ≠ ""
  | .int n => n ≠ 0
  | .float q => q ≠ 0

/-- Model of Python `str(x)`.  `str(None) = "None"`; the script never feeds
the rendering of a float back into a comparison, so `toString` on `ℚ`
stands in for the CPython float repr. -/
def PyVal.pyStr : PyVal → String
  | .none => "None"
  | .str s => s
  | .int n => toString n
  | .float q => toString q

/-- Model of the pervasive pattern `str(node.get(k) or "")`. -/
def pyStrOrEmpty (v : PyVal) : String := if v.truthy then v.pyStr else ""

/-- Model of Python `a or b` on field values. -/
def pyOr (a b : PyVal) : PyVal := if a.truthy then a else b

/-- Model of Python `s.replace(old, new)` for single-character arguments
(the only form the script uses), i.e. a character-wise map. -/
def pyReplaceChar (old new : Char) (s : String) : String :=
  ⟨s.data.map (fun c => if c = old then new else c)⟩

/-- Model of Python `s.lower()` (character-wise; ASCII case mapping, which
is all the compared market names need). -/
def pyLower (s : String) : String := ⟨s.data.map Char.toLower⟩

/-- Value of a list of ASCII decimal digit characters, most significant first. -/
def digitsVal (cs : List Char) : ℕ :=
  cs.foldl (fun acc c => acc * 10 + (c.toNat - 48)) 0

/-- Strip leading and trailing whitespace (Python `float` ignores it). -/
def stripWs (cs : List Char) : List Char :=
  ((cs.dropWhile Char.isWhitespace).reverse.dropWhile Char.isWhitespace).reverse

/-- Split an optional leading ASCII sign character. -/
def splitSign : List Char → ℤ × List Char
  | '-' :: rest => (-1, rest)
  | '+' :: rest => (1, rest)
  | cs => (1, cs)

/-- Parse the mantissa part of a Python float literal: optional ASCII sign,
digits, optional single dot, with at least one digit present.  The value is
assembled directly as `sign * (ipart.frac)` over `mkRat`. -/
def parseMantissa (cs : List Char) : Option ℚ :=
  let p := splitSign cs
  let q := p.2.span Char.isDigit
  match q.2 with
  | [] => if q.1.isEmpty then Option.none else some (mkRat (p.1 * (digitsVal q.1 : ℤ)) 1)
  | '.' :: frac =>
      if frac.all Char.isDigit && !(q.1.isEmpty && frac.isEmpty) then
        some (mkRat (p.1 * ((digitsVal q.1 : ℤ) * (10 : ℤ) ^ frac.length + (digitsVal frac : ℤ)))
          ((10 : ℕ) ^ frac.length))
      else Option.none
  | _ => Option.none

/-- Parse the exponent part of a Python float literal. -/
def parseExp (cs : List Char) : Option ℤ :=
  let p := splitSign cs
  if p.2.isEmpty || !(p.2.all Char.isDigit) then Option.none
  else some (p.1 * (digitsVal p.2 : ℤ))

/-- Scale a rational by `10 ^ e` for an integer exponent `e`. -/
def qScalePow10 (m : ℚ) (e : ℤ) : ℚ :=
  if 0 ≤ e then mkRat (m.num * (10 : ℤ) ^ e.toNat) m.den
  else mkRat m.num (m.den * (10 : ℕ) ^ (-e).toNat)

/-- Model of Python `float(s)` on the decimal fragment the scraper relies on:
optional whitespace, optional ASCII sign, digits with an optional dot, and an
optional decimal exponent.  Exotic CPython extras (`inf`, `nan`, underscore
digit separators, hex floats) are outside the modelled fragment; on the
strings the scraper manipulates the model is exact, and the result is the
exact rational value of the literal. -/
def pyFloatChars (cs0 : List Char) : Option ℚ :=
  let cs := stripWs cs0
  match cs.findIdx? (fun c => c == 'e' || c == 'E') with
  | Option.none => parseMantissa cs
  | some i =>
    match parseMantissa (cs.take i), parseExp (cs.drop (i + 1)) with
    | some m, some e => some (qScalePow10 m e)
    | _, _ => Option.none

/-- Model of Python `float(s)` on strings. -/
def pyFloat? (s : String) : Option ℚ := pyFloatChars s.data

/-- Round a rational to the nearest integer, ties to even — the rounding of
Python's fixed-point `format` (applied here to the exact rational value).
Written with integer floor division and remainder so it kernel-reduces. -/
def roundHalfEven (x : ℚ) : ℤ :=
  let f := Int.fdiv x.num (x.den : ℤ)
  let rn := x.num - f * (x.den : ℤ)
  if 2 * rn < (x.den : ℤ) then f
  else if (x.den : ℤ) < 2 * rn then f + 1
  else if Int.emod f 2 = 0 then f else f + 1

/-- Fuel-based helper for `natChars`; structural recursion keeps it
kernel-reducible. -/
def natCharsAux : ℕ → ℕ → List Char
  | 0, _ => []
  | fuel + 1, n =>
    if n < 10 then [Nat.digitChar n]
    else natCharsAux fuel (n / 10) ++ [Nat.digitChar (n % 10)]

/-- Decimal digit characters of a natural number, most significant first. -/
def natChars (n : ℕ) : List Char := natCharsAux (n + 1) n

/-- Left-pad a digit string with zeros to the given width. -/
def padLeftZeros (w : ℕ) (cs : List Char) : List Char :=
  List.replicate (w - cs.length) '0' ++ cs

/-- Model of Python `f"{val:.3f}"`: fixed-point rendering with exactly three
decimal digits (sign taken from the value, so a tiny negative value renders
`-0.000` just as CPython does). -/
def format3 (q : ℚ) : String :=
  let n := roundHalfEven (mkRat (q.num * 1000) q.den)
  let a := n.natAbs
  ⟨(if q.num < 0 then ['-'] else []) ++ natChars (a / 1000) ++ '.' :: padLeftZeros 3 (natChars (a % 1000))⟩

/-- Embedding of `format_decimal_str` (source lines 70–80): replace commas
with dots in strings, convert to float, render with three decimals;
any failure (including an unparseable string) yields `None`. -/
def format_decimal_str (value : PyVal) : Option String :=
  match value with
  | .none => Option.none
  | .str s => (pyFloat? (pyReplaceChar ',' '.' s)).map format3
  | .int n => some (format3 (mkRat n 1))
  | .float q => some (format3 q)

example : format_decimal_str (.str "1,950") = some "1.950" := by decide
example : format_decimal_str (.str "1.95") = some "1.950" := by decide
example : format_decimal_str (.str "abc") = Option.none := by decide
example : format_decimal_str (.str "0") = some "0.000" := by decide
example : format_decimal_str (.str "−1.5") = Option.none := by decide
example : format_decimal_str (.str "-1.5") = some "-1.500" := by decide
example : format_decimal_str (.float (mkRat 41 10)) = some "4.100" := by decide
example : format_decimal_str (.str "1.9e1") = some "19.000" := by decide
example : format_decimal_str .none = Option.none := by decide
example : format_decimal_str (.int 2) = some "2.000" := by decide

/-- Truncate a 32-bit word (arithmetic is done in `ℕ` with explicit wrap). -/
def w32 (n : ℕ) : ℕ := n % 4294967296

/-- Rotate a 32-bit word right by `n` bits. -/
def rotr32 (x n : ℕ) : ℕ := w32 ((x >>> n) ||| (x <<< (32 - n)))

/-- The 64 SHA-256 round constants (FIPS 180-4). -/
def sha256K : List ℕ :=
  [1116352408, 1899447441, 3049323471, 3921009573, 961987163,
   1508970993, 2453635748, 2870763221, 3624381080, 310598401,
   607225278, 1426881987, 1925078388, 2162078206, 2614888103,
   3248222580, 3835390401, 4022224774, 264347078, 604807628,
   770255983, 1249150122, 1555081692, 1996064986, 2554220882,
   2821834349, 2952996808, 3210313671, 3336571891, 3584528711,
   113926993, 338241895, 666307205, 773529912, 1294757372,
   1396182291, 1695183700, 1986661051, 2177026350, 2456956037,
   2730485921, 2820302411, 3259730800, 3345764771, 3516065817,
   3600352804, 4094571909, 275423344, 430227734, 506948616,
   659060556, 883997877, 958139571, 1322822218, 1537002063,
   1747873779, 1955562222, 2024104815, 2227730452, 2361852424,
   2428436474, 2756734187, 3204031479, 3329325298]

/-- The SHA-256 initial hash state (FIPS 180-4). -/
def sha256H0 : List ℕ :=
  [1779033703, 3144134277, 1013904242, 2773480762, 1359893119,
   2600822924, 528734635, 1541459225]

/-- Big-endian byte rendering of a number into `k` bytes. -/
def beBytes (k : ℕ) (n : ℕ) : List ℕ :=
  (List.range k).map (fun i => (n >>> (8 * (k - 1 - i))) % 256)

/-- SHA-256 message padding: append `0x80`, zero bytes to 56 mod 64, and the
bit length as eight big-endian bytes. -/
def sha256pad (msg : List ℕ) : List ℕ :=
  msg ++ 0x80 :: List.replicate ((120 - ((msg.length + 1) % 64)) % 64) 0 ++ beBytes 8 (8 * msg.length)

/-- Split a byte list into 64-byte blocks (fuel-based structural recursion). -/
def chunk64 : ℕ → List ℕ → List (List ℕ)
  | 0, _ => []
  | _, [] => []
  | fuel + 1, l => l.take 64 :: chunk64 fuel (l.drop 64)

/-- Big-endian word value of a byte list. -/
def wordOfBytes (bs : List ℕ) : ℕ := bs.foldl (fun acc b => acc * 256 + b) 0

/-- The 16 big-endian 32-bit words of a 64-byte block. -/
def blockWords (block : List ℕ) : List ℕ :=
  (List.range 16).map (fun i => wordOfBytes ((block.drop (4 * i)).take 4))

/-- One step of the SHA-256 message-schedule extension. -/
def sha256ExtStep (w : List ℕ) : List ℕ :=
  let t := w.length
  let x15 := w.getD (t - 15) 0
  let x2 := w.getD (t - 2) 0
  let s0 := rotr32 x15 7 ^^^ rotr32 x15 18 ^^^ (x15 >>> 3)
  let s1 := rotr32 x2 17 ^^^ rotr32 x2 19 ^^^ (x2 >>> 10)
  w ++ [w32 (w.getD (t - 16) 0 + s0 + w.getD (t - 7) 0 + s1)]

/-- Extend 16 schedule words to 64. -/
def sha256Schedule (w : List ℕ) : List ℕ :=
  (List.range 48).foldl (fun acc _ => sha256ExtStep acc) w

/-- One SHA-256 compression round on the eight-word working state. -/
def sha256Round (st : List ℕ) (kw : ℕ × ℕ) : List ℕ :=
  let a := st.getD 0 0
  let b := st.getD 1 0
  let c := st.getD 2 0
  let d := st.getD 3 0
  let e := st.getD 4 0
  let f := st.getD 5 0
  let g := st.getD 6 0
  let h := st.getD 7 0
  let S1 := rotr32 e 6 ^^^ rotr32 e 11 ^^^ rotr32 e 25
  let ch := (e &&& f) ^^^ ((e ^^^ 4294967295) &&& g)
  let temp1 := w32 (h + S1 + ch + kw.1 + kw.2)
  let S0 := rotr32 a 2 ^^^ rotr32 a 13 ^^^ rotr32 a 22
  let maj := (a &&& b) ^^^ (a &&& c) ^^^ (b &&& c)
  let temp2 := w32 (S0 + maj)
  [w32 (temp1 + temp2), a, b, c, w32 (d + temp1), e, f, g]

/-- SHA-256 compression of one 64-byte block into the hash state. -/
def sha256Compress (H : List ℕ) (block : List ℕ) : List ℕ :=
  let ws := sha256Schedule (blockWords block)
  let st := (sha256K.zip ws).foldl sha256Round H
  (H.zip st).map (fun p => w32 (p.1 + p.2))

/-- SHA-256 digest (32 bytes) of a byte message. -/
def sha256 (msg : List ℕ) : List ℕ :=
  let blocks := chunk64 (msg.length + 72) (sha256pad msg)
  ((blocks.foldl sha256Compress sha256H0).map (beBytes 4)).flatten

/-- Lowercase hex characters of a byte list, as `hexdigest()` renders them. -/
def bytesToHexChars (bs : List ℕ) : List Char :=
  (bs.map (fun b => [Nat.digitChar (b / 16), Nat.digitChar (b % 16)])).flatten

/-- Value of one lowercase hex digit character. -/
def hexCharVal (c : Char) : ℕ := if c.isDigit then c.toNat - 48 else c.toNat - 87

/-- Value of a lowercase hex string, as `int(s, 16)` computes it on the
hex-digit strings produced by `hexdigest()`. -/
def hexVal (cs : List Char) : ℕ := cs.foldl (fun acc c => acc * 16 + hexCharVal c) 0

/-- Standard UTF-8 encoding of one unicode scalar value. -/
def utf8EncodeChar (c : Char) : List ℕ :=
  let v := c.toNat
  if v < 0x80 then [v]
  else if v < 0x800 then [0xC0 ||| (v >>> 6), 0x80 ||| (v &&& 0x3F)]
  else if v < 0x10000 then
    [0xE0 ||| (v >>> 12), 0x80 ||| ((v >>> 6) &&& 0x3F), 0x80 ||| (v &&& 0x3F)]
  else
    [0xF0 ||| (v >>> 18), 0x80 ||| ((v >>> 12) &&& 0x3F), 0x80 ||| ((v >>> 6) &&& 0x3F),
     0x80 ||| (v &&& 0x3F)]

/-- UTF-8 bytes of a string, as `s.encode("utf-8")` produces them. -/
def utf8Bytes (s : String) : List ℕ := (s.data.map utf8EncodeChar).flatten

/-- Hex digest characters of the SHA-256 of a string's UTF-8 bytes. -/
def sha256hex (s : String) : List Char := bytesToHexChars (sha256 (utf8Bytes s))

/-- The integer value of the first 10 hex characters of the SHA-256 hex
digest — the id-derivation scheme used at source lines 85–86 and 115. -/
def hashId10 (s : String) : ℕ := hexVal ((sha256hex s).take 10)

/-- Embedding of `compute_match_id` (source lines 83–86). -/
def compute_match_id (home away : String) (date_iso : Option String) : ℕ :=
  hashId10 (home ++ "__" ++ away ++ "__" ++ date_iso.getD "")

example : sha256hex "abc" = "ba7816bf8f01cfea414140de5dae2223b00361a396177a9cb410ff61f20015ad".data := by decide
example : hashId10 "ev123" = 505916221234 := by decide
example : compute_match_id "HomeTeam" "AwayTeam" Option.none = 135206910465 := by decide

/-- Civil (proleptic Gregorian) date from days since 1970-01-01. -/
def civilFromDays (z0 : ℤ) : ℤ × ℤ × ℤ :=
  let z := z0 + 719468
  let era := Int.fdiv z 146097
  let doe := z - era * 146097
  let yoe := Int.fdiv (doe - Int.fdiv doe 1460 + Int.fdiv doe 36524 - Int.fdiv doe 146096) 365
  let y := yoe + era * 400
  let doy := doe - (365 * yoe + Int.fdiv yoe 4 - Int.fdiv yoe 100)
  let mp := Int.fdiv (5 * doy + 2) 153
  let d := doy - Int.fdiv (153 * mp + 2) 5 + 1
  let m := mp + (if mp < 10 then 3 else -9)
  (y + (if m ≤ 2 then 1 else 0), m, d)

/-- Decimal digits of a natural, left-padded with zeros to a given width. -/
def padNum (w : ℕ) (n : ℕ) : List Char := padLeftZeros w (natChars n)

/-- Model of
`datetime.fromtimestamp(ms_int / 1000.0, timezone.utc).isoformat().replace("+00:00", "Z")`
for an epoch-millisecond integer: UTC civil time, microseconds printed only
when non-zero (they are always a whole multiple of 1000 here), and the
trailing `+00:00` already rewritten to `Z`.  A timestamp whose year falls
outside `datetime`'s 1–9999 range raises in Python and is caught by the
enclosing `except`, modelled as `Option.none`.  The division by the float
`1000.0` is modelled exactly in `ℚ`. -/
def isoOfEpochMs (n : ℤ) : Option String :=
  let s := Int.fdiv n 1000
  let ms := (n - 1000 * s).toNat
  let days := Int.fdiv s 86400
  let sod := (s - 86400 * days).toNat
  let ymd := civilFromDays days
  if ymd.1 < 1 ∨ 9999 < ymd.1 then Option.none
  else some ⟨padNum 4 ymd.1.toNat ++ '-' :: padNum 2 ymd.2.1.toNat ++ '-' :: padNum 2 ymd.2.2.toNat
    ++ 'T' :: padNum 2 (sod / 3600) ++ ':' :: padNum 2 (sod / 60 % 60) ++ ':' :: padNum 2 (sod % 60)
    ++ (if ms ≠ 0 then '.' :: padNum 6 (ms * 1000) else []) ++ ['Z']⟩

/-- Embedding of the `event_time → date_iso` computation of
`build_item_skeleton_from_api` (source lines 92–101): a pure digit string is
converted to int, an int or float is truncated to integer milliseconds and
rendered as an ISO UTC string, anything else leaves `date_iso = None`. -/
def dateIsoFromEventTime (et : PyVal) : Option String :=
  let et1 : PyVal := match et with
    | .str s => if s ≠ "" && s.data.all Char.isDigit then .int (digitsVal s.data : ℤ) else .str s
    | v => v
  match et1 with
  | .int n => isoOfEpochMs n
  | .float q => isoOfEpochMs (Int.tdiv q.num (q.den : ℤ))
  | _ => Option.none

example : dateIsoFromEventTime (.int 1700000000000) = some "2023-11-14T22:13:20Z" := by decide
example : dateIsoFromEventTime (.str "1500") = some "1970-01-01T00:00:01.500000Z" := by decide
example : dateIsoFromEventTime (.int (-1)) = some "1969-12-31T23:59:59.999000Z" := by decide
example : dateIsoFromEventTime (.str "x15") = Option.none := by decide
example : dateIsoFromEventTime .none = Option.none := by decide

/-- One selection (priced outcome) of a raw market, with the fields the
script reads.  `displayOddsDecimal` stands for `(s.get("displayOdds") or
{}).get("Decimal")` collapsed to one field. -/
structure Selection where
  outcomeType : PyVal
  name : PyVal
  points : PyVal
  trueOdds : PyVal
  displayOddsDecimal : PyVal
deriving DecidableEq

/-- One raw market of an event node; `selections` models
`m.get("selections") or []`. -/
structure Market where
  name : PyVal
  marketTypeId : PyVal
  selections : List Selection
deriving DecidableEq

/-- One raw fixture payload (`event_node`), with the fields the script
reads; `markets` models `event_node.get("markets") or []`. -/
structure EventNode where
  eventId : PyVal
  homeTeamName : PyVal
  awayTeamName : PyVal
  eventTime : PyVal
  leagueName : PyVal
  sportUrl : PyVal
  regionUrl : PyVal
  leagueUrl : PyVal
  eventUrl : PyVal
  eventName : PyVal
  markets : List Market
deriving DecidableEq

/-- One moneyline odds entry (three legs as 3-decimal price strings). -/
structure MLOdds where
  home : String
  draw : String
  away : String
deriving DecidableEq

/-- One totals line as the script accumulates it (legs may still be unset). -/
structure TotalsRec where
  hdp : ℚ
  over : Option String
  under : Option String
deriving DecidableEq

/-- One Asian-handicap line keyed by the home side's point. -/
structure HcRec where
  hdp : ℚ
  home : String
  away : String
deriving DecidableEq

/-- One normalized market block as appended to `markets_out`. -/
inductive Block where
  | ml (updatedAt : String) (odds : List MLOdds)
  | totals (updatedAt : String) (odds : List TotalsRec)
  | handicap (updatedAt : String) (odds : List HcRec)
deriving DecidableEq

/-- The `"name"` field of a market block dict. -/
def Block.bname : Block → String
  | .ml _ _ => "ML"
  | .totals _ _ => "Totals"
  | .handicap _ _ => "Handicap"

/-- The Fixture Record dict built per event (`build_item_skeleton_from_api`),
with the nested constant dicts flattened into fields. -/
structure Item where
  id : ℕ
  home : String
  away : String
  date : String
  sportName : String
  sportSlug : String
  leagueName : String
  leagueSlug : String
  url : String
  bookmakers : List Block
  status : String
deriving DecidableEq

/-- Embedding of `build_item_skeleton_from_api` (source lines 89–128). -/
def build_item_skeleton_from_api (ev : EventNode) : Item :=
  let home := pyStrOrEmpty ev.homeTeamName
  let away := pyStrOrEmpty ev.awayTeamName
  let date_iso := dateIsoFromEventTime ev.eventTime
  let league := pyStrOrEmpty ev.leagueName
  let sport_slug := if ev.sportUrl.truthy then ev.sportUrl.pyStr else "soccer"
  let region := pyStrOrEmpty ev.regionUrl
  let league_url := pyStrOrEmpty ev.leagueUrl
  let event_url := pyStrOrEmpty ev.eventUrl
  let pretty_url := if event_url ≠ "" then
      "https://2up.io/pt/sports/" ++ sport_slug ++ "/" ++ region ++ "/" ++ league_url ++ "/" ++ event_url
    else ""
  let event_id_str := pyStrOrEmpty ev.eventId
  let match_id := if event_id_str ≠ "" then hashId10 event_id_str
    else compute_match_id home away date_iso
  { id := match_id
    home := home
    away := away
    date := date_iso.getD ""
    sportName := "Football"
    sportSlug := "soccer"
    leagueName := league
    leagueSlug := if league ≠ "" then pyReplaceChar ' ' '-' (pyLower league) else ""
    url := pretty_url
    bookmakers := []
    status := "pending" }

/-- Python `"pat" in s` substring test. -/
def hasSubstr (s pat : String) : Bool := decide (pat.data <:+: s.data)

/-- Truthiness of an optional price string (`if not price: continue`):
`None` and `""` are falsy. -/
def optTruthy : Option String → Bool
  | some s => s ≠ ""
  | Option.none => false

/-- The price of one selection:
`format_decimal_str(s.get("trueOdds") or (s.get("displayOdds") or {}).get("Decimal"))`. -/
def selPrice (s : Selection) : Option String :=
  format_decimal_str (pyOr s.trueOdds s.displayOddsDecimal)

/-- The mutable accumulator state of the market loop of
`extract_markets_from_api`. -/
structure ExtractSt where
  marketsOut : List Block
  mlDone : Bool
  totalsLines : List (ℚ × TotalsRec)
  handicapLines : List (ℚ × HcRec)
deriving DecidableEq

/-- One selection step of the moneyline scan (source lines 165–176):
accumulate the last valid price seen for each of home / tie-or-draw / away. -/
def mlScanStep (acc : Option String × Option String × Option String) (s : Selection) :
    Option String × Option String × Option String :=
  let outcome := pyLower (pyStrOrEmpty s.outcomeType)
  let price := selPrice s
  if !(optTruthy price) then acc
  else if outcome = "home" then (price, acc.2.1, acc.2.2)
  else if outcome = "tie" ∨ outcome = "draw" then (acc.1, price, acc.2.2)
  else if outcome = "away" then (acc.1, acc.2.1, price)
  else acc

/-- The `(home_p, draw_p, away_p)` triple scanned from a market's selections. -/
def mlScan (sels : List Selection) : Option String × Option String × Option String :=
  sels.foldl mlScanStep (Option.none, Option.none, Option.none)

/-- The moneyline branch of the market loop (source lines 163–189): emit the
block only if all three legs are truthy, with the find / remove / append
logic over `markets_out` embedded as written. -/
def mlBranch (nowIso : String) (st : ExtractSt) (isMainConfirmed : Bool)
    (sels : List Selection) : ExtractSt :=
  if optTruthy (mlScan sels).1 ∧ optTruthy (mlScan sels).2.1 ∧ optTruthy (mlScan sels).2.2 then
    if isMainConfirmed ∨ st.marketsOut.find? (fun b => b.bname == "ML") = Option.none then
      { st with
          marketsOut :=
            (if st.marketsOut.find? (fun b => b.bname == "ML") ≠ Option.none
              then st.marketsOut.filter (fun b => b.bname != "ML")
              else st.marketsOut) ++
            [Block.ml nowIso [⟨((mlScan sels).1).getD "", ((mlScan sels).2.1).getD "",
              ((mlScan sels).2.2).getD ""⟩]]
          mlDone := true }
    else st
  else st

/-- Points parsing of a totals selection (source lines 195–204): strings get
the comma replaced (but not the unicode minus), ints and floats pass
through, anything else or a parse failure skips the selection. -/
def totalsPoints? (p : PyVal) : Option ℚ :=
  match p with
  | .str s => pyFloat? (pyReplaceChar ',' '.' s)
  | .int n => some (mkRat n 1)
  | .float q => some q
  | .none => Option.none

/-- Insertion-ordered model of `d.setdefault(k, dflt)` followed by a field
update on the returned (shared) record. -/
def assocSetdefaultThen {α : Type} (k : ℚ) (dflt : α) (upd : α → α) :
    List (ℚ × α) → List (ℚ × α)
  | [] => [(k, upd dflt)]
  | (k1, v) :: rest =>
    if k1 = k then (k1, upd v) :: rest else (k1, v) :: assocSetdefaultThen k dflt upd rest

/-- Insertion-ordered model of dict assignment `d[k] = v`. -/
def assocSet {α : Type} (k : ℚ) (v : α) : List (ℚ × α) → List (ℚ × α)
  | [] => [(k, v)]
  | (k1, w) :: rest => if k1 = k then (k1, v) :: rest else (k1, w) :: assocSet k v rest

/-- One selection step of the totals branch (source lines 193–213). -/
def totalsSelStep (lines : List (ℚ × TotalsRec)) (s : Selection) : List (ℚ × TotalsRec) :=
  let ou := pyLower (pyStrOrEmpty (pyOr s.outcomeType s.name))
  match totalsPoints? s.points with
  | Option.none => lines
  | some pts =>
    let price := selPrice s
    if !(optTruthy price) then lines
    else
      assocSetdefaultThen pts { hdp := pts, over := Option.none, under := Option.none }
        (fun r0 => if hasSubstr ou "over" then { r0 with over := price }
          else if hasSubstr ou "under" then { r0 with under := price }
          else r0) lines

/-- Points parsing of a handicap selection (source lines 224–234): both the
comma and the unicode minus are normalized for strings. -/
def hcPoints? (p : PyVal) : Option ℚ :=
  match p with
  | .str s => pyFloat? (pyReplaceChar '−' '-' (pyReplaceChar ',' '.' s))
  | .int n => some (mkRat n 1)
  | .float q => some q
  | .none => Option.none

/-- The scan state of the handicap branch: last valid points and price seen
for each side. -/
structure HcScan where
  homePts : Option ℚ
  homePrice : Option String
  awayPts : Option ℚ
  awayPrice : Option String
deriving DecidableEq

/-- One selection step of the handicap branch (source lines 222–245). -/
def hcSelStep (acc : HcScan) (s : Selection) : HcScan :=
  let outcome := pyLower (pyStrOrEmpty s.outcomeType)
  match hcPoints? s.points with
  | Option.none => acc
  | some pts =>
    let price := selPrice s
    if !(optTruthy price) then acc
    else if outcome = "home" then { acc with homePts := some pts, homePrice := price }
    else if outcome = "away" then { acc with awayPts := some pts, awayPrice := price }
    else acc

/-- The handicap branch of the market loop (source lines 217–248): a line is
stored (keyed by the home side's point) only when both sides carry points
and truthy prices. -/
def hcScanOf (sels : List Selection) : HcScan :=
  sels.foldl hcSelStep ⟨Option.none, Option.none, Option.none, Option.none⟩

/-- The handicap branch of the market loop (source lines 217–248, applied to
the scan `hcScanOf sels`): a line is stored (keyed by the home side's point)
only when both sides carry points and truthy prices. -/
def hcBranch (st : ExtractSt) (sels : List Selection) : ExtractSt :=
  if (hcScanOf sels).homePts ≠ Option.none ∧ (hcScanOf sels).awayPts ≠ Option.none ∧
      optTruthy (hcScanOf sels).homePrice ∧ optTruthy (hcScanOf sels).awayPrice then
    { st with
        handicapLines :=
          assocSet (((hcScanOf sels).homePts).getD 0)
            { hdp := ((hcScanOf sels).homePts).getD 0,
              home := ((hcScanOf sels).homePrice).getD "",
              away := ((hcScanOf sels).awayPrice).getD "" } st.handicapLines }
  else st

/-- Classification of a market as the confirmed primary 1X2 market (source
lines 153–161): exact name `"ft 1x2"` or exact type code `"ml0"`, and the
name mentions neither `"double"` nor `"chance"`.  In this code
`is_1x2_main` and `is_main_confirmed` are assigned together and are always
equal. -/
def is1x2Main (mname mtid : String) : Bool :=
  (mname == "ft 1x2" || mtid == "ml0") && !(hasSubstr mname "double") && !(hasSubstr mname "chance")

/-- One iteration of the market loop of `extract_markets_from_api` (source
lines 146–248).  The moneyline branch ends in `continue`, so when its guard
fails the totals and handicap guards are tried in order. -/
def marketStep (nowIso : String) (st : ExtractSt) (m : Market) : ExtractSt :=
  let mname := pyLower (pyStrOrEmpty m.name)
  let mtid := pyLower (pyStrOrEmpty m.marketTypeId)
  let sels := m.selections
  if !st.mlDone && is1x2Main mname mtid then
    mlBranch nowIso st (is1x2Main mname mtid) sels
  else if mname == "ft o/u" || mtid == "ou0" then
    { st with totalsLines := sels.foldl totalsSelStep st.totalsLines }
  else if mname == "ft asian handicap" || mtid == "hc0" then
    hcBranch st sels
  else st

/-- Ascending comparison on the `hdp` field used by the final sorts. -/
def hdpLeT (a b : TotalsRec) : Prop := a.hdp ≤ b.hdp

/-- Ascending comparison on the `hdp` field used by the final sorts. -/
def hdpLeH (a b : HcRec) : Prop := a.hdp ≤ b.hdp

instance : DecidableRel hdpLeT := fun a b => inferInstanceAs (Decidable (a.hdp ≤ b.hdp))

instance : DecidableRel hdpLeH := fun a b => inferInstanceAs (Decidable (a.hdp ≤ b.hdp))

/-- Embedding of `extract_markets_from_api` (source lines 131–269): run the
market loop, then emit the totals block (lines with both legs priced,
sorted ascending by the handicap point) and the handicap block (sorted
ascending).  `list.sort(key=...)` is modelled by the stable
`List.insertionSort`.  The wall-clock `now_iso` snapshot string is an
explicit parameter. -/
def extract_markets_from_api (nowIso : String) (ev : EventNode) : List Block :=
  let st := ev.markets.foldl (marketStep nowIso) ⟨[], false, [], []⟩
  let totalsOut := (st.totalsLines.map Prod.snd).filter (fun v => optTruthy v.over && optTruthy v.under)
  let out1 := if totalsOut ≠ [] then
      st.marketsOut ++ [Block.totals nowIso (List.insertionSort hdpLeT totalsOut)]
    else st.marketsOut
  if st.handicapLines ≠ [] then
    out1 ++ [Block.handicap nowIso (List.insertionSort hdpLeH (st.handicapLines.map Prod.snd))]
  else out1

/-- Shorthand to build a selection in examples and witnesses. -/
def mkSel (outcome points odds : PyVal) : Selection :=
  ⟨outcome, .none, points, odds, .none⟩

/-- Shorthand to build an event node holding only markets, for examples and
witnesses. -/
def evOfMarkets (ms : List Market) : EventNode :=
  ⟨.none, .str "H", .str "A", .none, .none, .none, .none, .none, .none, .none, ms⟩

example :
    extract_markets_from_api "T" (evOfMarkets [⟨.str "FT 1X2", .none,
      [mkSel (.str "home") .none (.str "1,90"),
       mkSel (.str "tie") .none (.str "3.40"),
       mkSel (.str "away") .none (.float (mkRat 41 10))]⟩]) =
    [Block.ml "T" [⟨"1.900", "3.400", "4.100"⟩]] := by decide

example :
    extract_markets_from_api "T" (evOfMarkets [⟨.str "FT O/U", .none,
      [mkSel (.str "Over") (.str "2.5") (.float (mkRat 37 20)),
       mkSel (.str "Under") (.float (mkRat 5 2)) (.float (mkRat 39 20))]⟩]) =
    [Block.totals "T" [⟨mkRat 5 2, some "1.850", some "1.950"⟩]] := by decide

example :
    extract_markets_from_api "T" (evOfMarkets [⟨.str "FT 1X2", .none,
      [mkSel (.str "home") .none (.str "1,90"),
       mkSel (.str "away") .none (.float (mkRat 41 10))]⟩]) = [] := by decide

/-- The `data` object of a successful response envelope.  `totalPages` and
`page` hold the value after `int(...)`; `Option.none` models a field that is
absent or falsy (so the `or`-defaults apply). -/
structure ApiData where
  items : List EventNode
  totalPages : Option ℤ
  page : Option ℤ
deriving DecidableEq

/-- The parsed JSON body of a page response: either not a dict, or a dict
with a `code` field (any loosely-typed value) and an optional `data` object. -/
inductive Envelope where
  | notDict
  | dict (code : PyVal) (data : Option ApiData)
deriving DecidableEq

/-- The transport outcome of one page request: `session.post` raised, or a
response with an HTTP status whose body either fails `resp.json()` or
parses to an envelope. -/
inductive HttpResult where
  | raised
  | resp (status : ℕ) (body : Option Envelope)
deriving DecidableEq

/-- One page request as issued by the inner loop: the varying payload
fields (`startTime`, `endTime`, `pageSize`, `pageNum`). -/
structure Request where
  startTime : ℤ
  endTime : ℤ
  pageSize : ℤ
  pageNum : ℤ
deriving DecidableEq

/-- The upstream API modelled as a deterministic response per request. -/
def Oracle : Type := Request → HttpResult

/-- The fatal outcomes of a run: the four raise sites of the page loop, plus
fuel exhaustion of the model's bounded recursion. -/
inductive ScrapeErr where
  | requestRaised
  | httpStatus (code : ℕ)
  | jsonDecode
  | badEnvelope
  | outOfFuel
deriving DecidableEq

/-- The run state of `scrape_api_only`: accumulated results, the upstream
event id recorded for each appended result (instrumentation used to state
the dedup property), the `seen_event_ids` set (as an insertion-ordered
list), and the log of requests issued so far (instrumentation used to state
the temporal properties). -/
structure RunSt where
  results : List Item
  resultEvIds : List String
  seen : List String
  log : List Request
deriving DecidableEq

/-- Processing of one raw event inside the page loop (source lines 415–427):
skip when the upstream event id is non-empty and already seen, otherwise
build the skeleton, attach the extracted markets when non-empty, append the
item, record the id, and mark the window as having produced a new item. -/
def processEvent (nowIso : String) (acc : RunSt × Bool) (ev : EventNode) : RunSt × Bool :=
  let evId := pyStrOrEmpty ev.eventId
  if evId ≠ "" ∧ evId ∈ acc.1.seen then acc
  else
    let item0 := build_item_skeleton_from_api ev
    let mkts := extract_markets_from_api nowIso ev
    let item := if mkts ≠ [] then { item0 with bookmakers := mkts } else item0
    ({ acc.1 with
        results := acc.1.results ++ [item]
        resultEvIds := acc.1.resultEvIds ++ [evId]
        seen := if evId ≠ "" then acc.1.seen ++ [evId] else acc.1.seen }, true)

/-- Embedding of the inner page loop of `scrape_api_only` (source lines
367–433), with explicit fuel.  Every iteration logs its request; the four
raise sites return the corresponding error; an empty `items` list or
`page_now >= total_pages` ends the window normally. -/
def pageLoop (api : Oracle) (nowIso : String) (startMs endMs pageSize : ℤ) :
    ℕ → ℤ → Bool → RunSt → RunSt × Bool × Option ScrapeErr
  | 0, _, gotAny, st => (st, gotAny, some .outOfFuel)
  | fuel + 1, page, gotAny, st =>
    let req : Request := ⟨startMs, endMs, pageSize, page⟩
    let st1 := { st with log := st.log ++ [req] }
    match api req with
    | .raised => (st1, gotAny, some .requestRaised)
    | .resp status body =>
      if status ≠ 200 then (st1, gotAny, some (.httpStatus status))
      else match body with
        | Option.none => (st1, gotAny, some .jsonDecode)
        | some .notDict => (st1, gotAny, some .badEnvelope)
        | some (.dict code data) =>
          if code.pyStr ≠ "200" then (st1, gotAny, some .badEnvelope)
          else
            let items := match data with | some a => a.items | Option.none => []
            if items = [] then (st1, gotAny, Option.none)
            else
              let acc := items.foldl (processEvent nowIso) (st1, gotAny)
              let tp := match data with | some a => a.totalPages.getD 1 | Option.none => 1
              let pn := match data with | some a => a.page.getD page | Option.none => page
              if tp ≤ pn then (acc.1, acc.2, Option.none)
              else pageLoop api nowIso startMs endMs pageSize fuel (page + 1) acc.2 acc.1

/-- Embedding of the outer window loop of `scrape_api_only` (source lines
359–440), with explicit fuel: run the page loop for the current window; a
window that produced no new item ends the run; otherwise the next window
starts at `end_ms + 1` with the same width and the page counter reset. -/
def windowLoop (api : Oracle) (nowIso : String) (windowMs pageSize pageStart : ℤ) (pfuel : ℕ) :
    ℕ → ℤ → RunSt → RunSt × Option ScrapeErr
  | 0, _, st => (st, some .outOfFuel)
  | wfuel + 1, startMs, st =>
    let endMs := startMs + windowMs
    let r := pageLoop api nowIso startMs endMs pageSize pfuel pageStart false st
    match r.2.2 with
    | some e => (r.1, some e)
    | Option.none =>
      if !r.2.1 then (r.1, Option.none)
      else windowLoop api nowIso windowMs pageSize pageStart pfuel wfuel (endMs + 1) r.1

/-- Embedding of `scrape_api_only` (source lines 326–452), restricted to its
core (the transport/session/header construction and the final JSON write
are external collaborators; the wall-clock snapshot enters as `startMs` and
`nowIso`).  The `maxMatches` and `exhaust` parameters are accepted exactly
as in the source signature and, as in the source body, never read. -/
def scrape_api_only (api : Oracle) (nowIso : String) (startMs : ℤ)
    (maxMatches : Option ℕ) (hoursAhead : ℤ) (pageSize : ℤ) (pageNumStart : ℤ)
    (exhaust : Bool) (wfuel pfuel : ℕ) : RunSt × Option ScrapeErr :=
  windowLoop api nowIso (hoursAhead * 3600 * 1000) pageSize pageNumStart pfuel
    wfuel startMs ⟨[], [], [], []⟩

/-- A successful empty-page envelope, used in examples and witnesses. -/
def emptyPageResp : HttpResult :=
  .resp 200 (some (.dict (.str "200") (some ⟨[], Option.none, Option.none⟩)))

example :
    (scrape_api_only (fun _ => emptyPageResp) "T" 0 Option.none 48 50 1 true 5 5).2
      = Option.none := by decide

example :
    (scrape_api_only (fun _ => emptyPageResp) "T" 0 Option.none 48 50 1 true 5 5).1.log
      = [⟨0, 172800000, 50, 1⟩] := by decide

example :
    (scrape_api_only (fun _ => .raised) "T" 0 Option.none 48 50 1 true 5 5).2
      = some .requestRaised := by decide

/-! Shared helper lemmas. -/

theorem stringMk_ne_empty {l : List Char} (h : l ≠ []) : (⟨l⟩ : String) ≠ "" := by
  intro he
  exact h (congrArg String.data he)

theorem format3_ne_empty (q : ℚ) : format3 q ≠ "" := by
  unfold format3
  apply stringMk_ne_empty
  intro he
  rcases List.append_eq_nil.mp he with ⟨-, h2⟩
  exact List.cons_ne_nil _ _ h2

theorem optTruthy_iff (o : Option String) :
    optTruthy o = true ↔ ∃ s, o = some s ∧ s ≠ "" := by
  cases o with
  | none => simp [optTruthy]
  | some s =>
    simp only [optTruthy, Option.some.injEq]
    constructor
    · intro h
      exact ⟨s, rfl, by simpa using h⟩
    · rintro ⟨t, rfl, ht⟩
      simpa using ht

theorem map_eq_none_iff {α β : Type} (f : α → β) (o : Option α) :
    o.map f = Option.none ↔ o = Option.none := by
  cases o <;> simp

/-- C1 counterexample: a selection price that parses to zero (a non-positive
value) is not treated as absent — `format_decimal_str` renders it `"0.000"`,
which is truthy, and a `Totals` line carrying that leg is emitted. -/
theorem C1_counterexample :
    format_decimal_str (.str "0") = some "0.000" ∧
    extract_markets_from_api "T" (evOfMarkets [⟨.str "FT O/U", .none,
      [mkSel (.str "Over") (.str "2.5") (.str "0"),
       mkSel (.str "Under") (.str "2.5") (.float (mkRat 39 20))]⟩]) =
    [Block.totals "T" [⟨mkRat 5 2, some "0.000", some "1.950"⟩]] := by decide

/-- C1 (amended): a price value is treated as absent exactly when it is
`None` or a string that fails to parse as a decimal; a value that parses —
of any sign, zero included — is formatted to a non-empty (hence truthy,
hence kept) 3-decimal string.  Positivity is never checked. -/
theorem C1_price_absence (v : PyVal) :
    (format_decimal_str v = Option.none ↔
      (v = .none ∨ ∃ s, v = .str s ∧ pyFloat? (pyReplaceChar ',' '.' s) = Option.none)) ∧
    (∀ q : ℚ, ∃ t, format_decimal_str (.float q) = some t ∧ t ≠ "") := by
  constructor
  · cases v with
    | none => simp [format_decimal_str]
    | str s => simp [format_decimal_str, map_eq_none_iff]
    | int n => simp [format_decimal_str]
    | float q => simp [format_decimal_str]
  · intro q
    exact ⟨format3 q, rfl, format3_ne_empty q⟩

/-- C2 counterexample: a price string written with a unicode minus (U+2212)
is not normalized before parsing — it fails to parse and becomes absent,
while the identical string with an ASCII minus parses. -/
theorem C2_counterexample :
    format_decimal_str (.str "−1.5") = Option.none ∧
    format_decimal_str (.str "-1.5") = some "-1.500" := by decide

theorem minus_comma_minus_char (c : Char) :
    (fun c => if c = '−' then '-' else c) ((fun c => if c = ',' then '.' else c)
      ((fun c => if c = '−' then '-' else c) c)) =
    (fun c => if c = '−' then '-' else c) ((fun c => if c = ',' then '.' else c) c) := by
  by_cases h1 : c = '−'
  · subst h1; decide
  · by_cases h2 : c = ','
    · subst h2; decide
    · simp [h1, h2]

theorem comma_comma_char (c : Char) :
    (fun c => if c = ',' then '.' else c) ((fun c => if c = ',' then '.' else c) c) =
    (fun c => if c = ',' then '.' else c) c := by
  by_cases h2 : c = ','
  · subst h2; decide
  · simp [h2]

/-- C2 (amended): the comma decimal separator is repaired for every numeric
string (so `"1,950"`, `"1.950"`, `"1.95"` all normalize to the canonical
price string `"1.950"`, and repairing commas is idempotent on prices), but
the unicode minus sign is repaired only in the Asian-handicap points
parser, where a U+2212 string parses to the same value as its ASCII twin. -/
theorem C2_normalization :
    format_decimal_str (.str "1,950") = some "1.950" ∧
    format_decimal_str (.str "1.950") = some "1.950" ∧
    format_decimal_str (.str "1.95") = some "1.950" ∧
    (∀ s : String, hcPoints? (.str s) = hcPoints? (.str (pyReplaceChar '−' '-' s))) ∧
    (∀ s : String, format_decimal_str (.str s) = format_decimal_str (.str (pyReplaceChar ',' '.' s))) := by
  refine ⟨by decide, by decide, by decide, ?_, ?_⟩
  · intro s
    show pyFloat? _ = pyFloat? _
    apply congrArg
    show String.mk _ = String.mk _
    apply congrArg
    simp only [pyReplaceChar, List.map_map]
    refine List.map_congr_left (fun c _ => ?_)
    simp only [Function.comp_apply]
    exact (minus_comma_minus_char c).symm
  · intro s
    show (pyFloat? _).map format3 = (pyFloat? _).map format3
    apply congrArg
    apply congrArg
    show String.mk _ = String.mk _
    apply congrArg
    simp only [pyReplaceChar, List.map_map]
    refine List.map_congr_left (fun c _ => ?_)
    simp only [Function.comp_apply]
    exact (comma_comma_char c).symm

/-- C10: the `max_matches` and `exhaust` arguments of `scrape_api_only`
influence neither fetching nor deduplication nor the returned results: two
runs over the same upstream responses that differ only in those arguments
return identical states (results, ids, dedup set, request log) and
identical outcomes; in particular the result list is never truncated. -/
theorem C10_params_no_influence (api : Oracle) (nowIso : String) (startMs : ℤ)
    (m1 m2 : Option ℕ) (hoursAhead pageSize pageNumStart : ℤ) (e1 e2 : Bool)
    (wfuel pfuel : ℕ) :
    scrape_api_only api nowIso startMs m1 hoursAhead pageSize pageNumStart e1 wfuel pfuel =
      scrape_api_only api nowIso startMs m2 hoursAhead pageSize pageNumStart e2 wfuel pfuel := rfl

theorem hexVal_foldl_bound (cs : List Char) :
    ∀ acc : ℕ, (∀ c ∈ cs, hexCharVal c < 16) →
      cs.foldl (fun a c => a * 16 + hexCharVal c) acc < (acc + 1) * 16 ^ cs.length := by
  induction cs with
  | nil => intro acc _; simpa using Nat.lt_succ_self acc
  | cons c cs ih =>
    intro acc h
    have hc : hexCharVal c < 16 := h c (List.mem_cons_self c cs)
    have h2 : ∀ x ∈ cs, hexCharVal x < 16 := fun x hx => h x (List.mem_cons_of_mem c hx)
    have hstep : acc * 16 + hexCharVal c + 1 ≤ (acc + 1) * 16 := by omega
    have hrec := ih (acc * 16 + hexCharVal c) h2
    simp only [List.foldl_cons, List.length_cons]
    calc List.foldl (fun a c => a * 16 + hexCharVal c) (acc * 16 + hexCharVal c) cs
        < (acc * 16 + hexCharVal c + 1) * 16 ^ cs.length := hrec
      _ ≤ ((acc + 1) * 16) * 16 ^ cs.length := Nat.mul_le_mul_right _ hstep
      _ = (acc + 1) * 16 ^ (cs.length + 1) := by ring

theorem hexVal_lt (cs : List Char) (h : ∀ c ∈ cs, hexCharVal c < 16) :
    hexVal cs < 16 ^ cs.length := by
  simpa using hexVal_foldl_bound cs 0 h

theorem beBytes_mem_lt (k n : ℕ) : ∀ b ∈ beBytes k n, b < 256 := by
  intro b hb
  simp only [beBytes, List.mem_map] at hb
  obtain ⟨i, -, rfl⟩ := hb
  exact Nat.mod_lt _ (by omega)

theorem sha256_mem_lt (msg : List ℕ) : ∀ b ∈ sha256 msg, b < 256 := by
  intro b hb
  simp only [sha256] at hb
  rcases List.mem_flatten.mp hb with ⟨l, hl, hbl⟩
  rcases List.mem_map.mp hl with ⟨hw, -, rfl⟩
  exact beBytes_mem_lt 4 hw b hbl

theorem hexCharVal_digitChar_lt : ∀ n < 16, hexCharVal (Nat.digitChar n) < 16 := by decide

theorem bytesToHexChars_mem_lt (bs : List ℕ) (h : ∀ b ∈ bs, b < 256) :
    ∀ c ∈ bytesToHexChars bs, hexCharVal c < 16 := by
  intro c hc
  simp only [bytesToHexChars] at hc
  rcases List.mem_flatten.mp hc with ⟨l, hl, hcl⟩
  rcases List.mem_map.mp hl with ⟨b, hb, rfl⟩
  have hb256 := h b hb
  have hdiv : b / 16 < 16 := by
    have : b / 16 < 256 / 16 + 1 := Nat.lt_succ_of_le (Nat.div_le_div_right (by omega))
    omega
  simp only [List.mem_cons, List.not_mem_nil, or_false] at hcl
  rcases hcl with rfl | rfl
  · exact hexCharVal_digitChar_lt _ hdiv
  · exact hexCharVal_digitChar_lt _ (Nat.mod_lt _ (by omega))

theorem hashId10_lt (s : String) : hashId10 s < 16 ^ 10 := by
  unfold hashId10
  have h1 : ∀ c ∈ (sha256hex s).take 10, hexCharVal c < 16 := by
    intro c hc
    exact bytesToHexChars_mem_lt _ (sha256_mem_lt _) c (List.mem_of_mem_take hc)
  have h2 := hexVal_lt _ h1
  have h3 : ((sha256hex s).take 10).length ≤ 10 := by
    simp [List.length_take]
  calc hexVal ((sha256hex s).take 10) < 16 ^ ((sha256hex s).take 10).length := h2
    _ ≤ 16 ^ 10 := Nat.pow_le_pow_right (by omega) h3

/-- C8: the id of a Fixture Record is a pure function of the event node —
the embedding is a total function, so computing it twice on identical input
trivially yields the same integer, with no randomness or clock input (the
skeleton builder takes no time parameter at all).  When the upstream event
id is present (truthy) the id is the integer value of the first 10 hex
characters of the SHA-256 digest of that id; otherwise it is
`compute_match_id`, i.e. the same digest scheme applied to the key
`home ++ "__" ++ away ++ "__" ++ date`; in both cases it is below `16^10`. -/
theorem C8_id_derivation (ev : EventNode) :
    (pyStrOrEmpty ev.eventId ≠ "" →
       (build_item_skeleton_from_api ev).id = hashId10 (pyStrOrEmpty ev.eventId)) ∧
    (pyStrOrEmpty ev.eventId = "" →
       (build_item_skeleton_from_api ev).id =
         compute_match_id (pyStrOrEmpty ev.homeTeamName) (pyStrOrEmpty ev.awayTeamName)
           (dateIsoFromEventTime ev.eventTime)) ∧
    (build_item_skeleton_from_api ev).id < 16 ^ 10 := by
  refine ⟨fun h => by simp [build_item_skeleton_from_api, h], fun h => by
    simp [build_item_skeleton_from_api, h], ?_⟩
  by_cases h : pyStrOrEmpty ev.eventId = ""
  · simpa [build_item_skeleton_from_api, h, compute_match_id] using hashId10_lt _
  · simpa [build_item_skeleton_from_api, h] using hashId10_lt _

/-- A concrete event node carrying an upstream event id. -/
def evC8 : EventNode :=
  ⟨.str "ev123", .str "HomeTeam", .str "AwayTeam", .none, .none, .none, .none, .none,
   .none, .none, []⟩

theorem C8_id_derivation_witness :
    (build_item_skeleton_from_api evC8).id = hashId10 (pyStrOrEmpty evC8.eventId) :=
  (C8_id_derivation evC8).1 (by decide)

/-- C4: temporal behaviour of the fetch loops.  (1) A page request whose
successful envelope carries zero items ends the current window right there:
the returned state's request log is extended by exactly that one request and
no error is reported, so no further page of the window is requested.
(2) A completed window that produced zero new (non-duplicate) items halts
the whole run with the state as returned by that window's page loop — no
further page or window request is issued.  (3) Otherwise the run continues
as a window loop starting at `window_end + 1` with the same width
(`windowMs` is unchanged) and the page counter reset to the start page
(every window's page loop starts at `pageStart`). -/
theorem C4_window_termination (api : Oracle) (nowIso : String)
    (windowMs pageSize pageStart startMs : ℤ) (pfuel wfuel : ℕ) (st : RunSt) :
    (∀ (page : ℤ) (gotAny : Bool) (fuel : ℕ) (code : PyVal) (data : Option ApiData),
       api ⟨startMs, startMs + windowMs, pageSize, page⟩ = .resp 200 (some (.dict code data)) →
       code.pyStr = "200" →
       (match data with | some a => a.items | Option.none => []) = [] →
       pageLoop api nowIso startMs (startMs + windowMs) pageSize (fuel + 1) page gotAny st =
         ({ st with log := st.log ++ [⟨startMs, startMs + windowMs, pageSize, page⟩] }, gotAny,
           Option.none)) ∧
    (∀ st1 : RunSt,
       pageLoop api nowIso startMs (startMs + windowMs) pageSize pfuel pageStart false st =
         (st1, false, Option.none) →
       windowLoop api nowIso windowMs pageSize pageStart pfuel (wfuel + 1) startMs st =
         (st1, Option.none)) ∧
    (∀ st1 : RunSt,
       pageLoop api nowIso startMs (startMs + windowMs) pageSize pfuel pageStart false st =
         (st1, true, Option.none) →
       windowLoop api nowIso windowMs pageSize pageStart pfuel (wfuel + 1) startMs st =
         windowLoop api nowIso windowMs pageSize pageStart pfuel wfuel (startMs + windowMs + 1) st1) := by
  refine ⟨?_, ?_, ?_⟩
  · intro page gotAny fuel code data hapi hcode hitems
    simp [pageLoop, hapi, hcode, hitems]
  · intro st1 hpl
    simp [windowLoop, hpl]
  · intro st1 hpl
    simp [windowLoop, hpl]

theorem C4_window_termination_witness :
    (pageLoop (fun _ => emptyPageResp) "T" 0 (0 + 172800000) 50 5 1 false ⟨[], [], [], []⟩ =
      ({ results := [], resultEvIds := [], seen := [],
         log := [] ++ [⟨0, 0 + 172800000, 50, 1⟩] }, false, Option.none)) ∧
    (windowLoop (fun _ => emptyPageResp) "T" 172800000 50 1 5 (2 + 1) 0 ⟨[], [], [], []⟩ =
      (⟨[], [], [], [⟨0, 0 + 172800000, 50, 1⟩]⟩, Option.none)) := by
  constructor
  · exact (C4_window_termination (fun _ => emptyPageResp) "T" 172800000 50 1 0 5 2
      ⟨[], [], [], []⟩).1 1 false 4 (.str "200") (some ⟨[], Option.none, Option.none⟩) rfl rfl rfl
  · exact (C4_window_termination (fun _ => emptyPageResp) "T" 172800000 50 1 0 5 2
      ⟨[], [], [], []⟩).2.1 ⟨[], [], [], [⟨0, 0 + 172800000, 50, 1⟩]⟩ (by decide)

/-- A page response is faulty when it raises, has a non-200 HTTP status, an
unparseable JSON body, a non-dict envelope, or an envelope code other than
the success marker `"200"` — exactly the four raise sites of the page loop. -/
def faultyResp : HttpResult → Prop
  | .raised => True
  | .resp status body =>
    status ≠ 200 ∨ body = Option.none ∨ body = some .notDict ∨
      ∃ code data, body = some (.dict code data) ∧ code.pyStr ≠ "200"

theorem pageLoop_err_source (api : Oracle) (nowIso : String) (startMs endMs pageSize : ℤ) :
    ∀ (fuel : ℕ) (page : ℤ) (gotAny : Bool) (st st1 : RunSt) (g1 : Bool) (e : ScrapeErr),
      pageLoop api nowIso startMs endMs pageSize fuel page gotAny st = (st1, g1, some e) →
      e = .outOfFuel ∨ ∃ r ∈ st1.log, faultyResp (api r) := by
  intro fuel
  induction fuel with
  | zero =>
    intro page gotAny st st1 g1 e h
    simp only [pageLoop, Prod.mk.injEq, Option.some.injEq] at h
    exact Or.inl h.2.2.symm
  | succ fuel ih =>
    intro page gotAny st st1 g1 e h
    have hmem : (⟨startMs, endMs, pageSize, page⟩ : Request) ∈
        st.log ++ [(⟨startMs, endMs, pageSize, page⟩ : Request)] :=
      List.mem_append_right _ (List.mem_singleton.mpr rfl)
    rcases hres : api ⟨startMs, endMs, pageSize, page⟩ with _ | ⟨status, body⟩
    · have h1 : ({ st with log := st.log ++ [⟨startMs, endMs, pageSize, page⟩] } : RunSt) = st1 := by
        have := h
        simp only [pageLoop, hres, Prod.mk.injEq, Option.some.injEq] at this
        exact this.1
      exact Or.inr ⟨⟨startMs, endMs, pageSize, page⟩, by rw [← h1]; exact hmem,
        by rw [hres]; trivial⟩
    · by_cases hst : status = 200
      · subst hst
        rcases body with _ | env
        · have h1 : ({ st with log := st.log ++ [⟨startMs, endMs, pageSize, page⟩] } : RunSt) = st1 := by
            have := h
            simp only [pageLoop, hres, if_neg (by omega : ¬ (200 : ℕ) ≠ 200), Prod.mk.injEq,
              Option.some.injEq] at this
            exact this.1
          exact Or.inr ⟨⟨startMs, endMs, pageSize, page⟩, by rw [← h1]; exact hmem,
            by rw [hres]; exact Or.inr (Or.inl rfl)⟩
        · rcases env with _ | ⟨code, data⟩
          · have h1 : ({ st with log := st.log ++ [⟨startMs, endMs, pageSize, page⟩] } : RunSt) = st1 := by
              have := h
              simp only [pageLoop, hres, if_neg (by omega : ¬ (200 : ℕ) ≠ 200), Prod.mk.injEq,
                Option.some.injEq] at this
              exact this.1
            exact Or.inr ⟨⟨startMs, endMs, pageSize, page⟩, by rw [← h1]; exact hmem,
              by rw [hres]; exact Or.inr (Or.inr (Or.inl rfl))⟩
          · by_cases hcode : code.pyStr = "200"
            · rcases data with _ | a
              · simp [pageLoop, hres, hcode] at h
              · by_cases hitems : a.items = []
                · simp [pageLoop, hres, hcode, hitems] at h
                · by_cases hpn : a.totalPages.getD 1 ≤ a.page.getD page
                  · simp [pageLoop, hres, hcode, hitems, hpn] at h
                  · simp only [pageLoop, hres, if_neg (by omega : ¬ (200 : ℕ) ≠ 200),
                      if_neg (by simp [hcode] : ¬ code.pyStr ≠ "200"), if_neg hitems,
                      if_neg hpn] at h
                    exact ih _ _ _ _ _ _ h
            · have h1 : ({ st with log := st.log ++ [⟨startMs, endMs, pageSize, page⟩] } : RunSt) = st1 := by
                have := h
                simp only [pageLoop, hres, if_neg (by omega : ¬ (200 : ℕ) ≠ 200),
                  if_pos hcode, Prod.mk.injEq, Option.some.injEq] at this
                exact this.1
              exact Or.inr ⟨⟨startMs, endMs, pageSize, page⟩, by rw [← h1]; exact hmem,
                by rw [hres]; exact Or.inr (Or.inr (Or.inr ⟨code, data, rfl, hcode⟩))⟩
      · have h1 : ({ st with log := st.log ++ [⟨startMs, endMs, pageSize, page⟩] } : RunSt) = st1 := by
          have := h
          simp only [pageLoop, hres, if_pos hst, Prod.mk.injEq, Option.some.injEq] at this
          exact this.1
        exact Or.inr ⟨⟨startMs, endMs, pageSize, page⟩, by rw [← h1]; exact hmem,
          by rw [hres]; exact Or.inl hst⟩

theorem windowLoop_err_source (api : Oracle) (nowIso : String)
    (windowMs pageSize pageStart : ℤ) (pfuel : ℕ) :
    ∀ (wfuel : ℕ) (startMs : ℤ) (st st1 : RunSt) (e : ScrapeErr),
      windowLoop api nowIso windowMs pageSize pageStart pfuel wfuel startMs st = (st1, some e) →
      e = .outOfFuel ∨ ∃ r ∈ st1.log, faultyResp (api r) := by
  intro wfuel
  induction wfuel with
  | zero =>
    intro startMs st st1 e h
    simp only [windowLoop, Prod.mk.injEq, Option.some.injEq] at h
    exact Or.inl h.2.symm
  | succ wfuel ih =>
    intro startMs st st1 e h
    rcases hpl : pageLoop api nowIso startMs (startMs + windowMs) pageSize pfuel pageStart
        false st with ⟨stp, gp, ep⟩
    rcases ep with _ | e0
    · by_cases hg : gp = true
      · simp only [windowLoop, hpl, hg, Bool.not_true, Bool.false_eq_true, if_false] at h
        exact ih _ _ _ _ h
      · have hg2 : gp = false := by
          cases gp
          · rfl
          · exact absurd rfl hg
        subst hg2
        simp only [windowLoop, hpl, Bool.not_false, if_true, Prod.mk.injEq] at h
        simp at h
    · simp only [windowLoop, hpl, Prod.mk.injEq, Option.some.injEq] at h
      rcases h with ⟨h1, h2⟩
      subst h2
      rw [← h1]
      exact pageLoop_err_source api nowIso startMs (startMs + windowMs) pageSize pfuel
        pageStart false st stp gp e0 hpl

/-- C9: error handling of a page request.  (1) When the response is faulty —
transport raised, non-200 HTTP status, unparseable JSON body, or an
envelope whose code is not the success marker — the page loop stops at that
very request (the log is extended by it alone) with a genuine error.
(2) A page-loop error propagates through the window loop unchanged,
aborting the run.  (3) Conversely a run can only fail because some logged
request's response was faulty (or the model's fuel ran out): processing of
items — where all per-field normalization happens — is total and never
produces an error, so field-level failures are absorbed as absent values. -/
theorem C9_error_propagation (api : Oracle) (nowIso : String)
    (startMs endMs pageSize windowMs pageStart : ℤ) (pfuel : ℕ) :
    (∀ (fuel : ℕ) (page : ℤ) (gotAny : Bool) (st : RunSt),
       faultyResp (api ⟨startMs, endMs, pageSize, page⟩) →
       ∃ e, pageLoop api nowIso startMs endMs pageSize (fuel + 1) page gotAny st =
           ({ st with log := st.log ++ [⟨startMs, endMs, pageSize, page⟩] }, gotAny, some e) ∧
         e ≠ ScrapeErr.outOfFuel) ∧
    (∀ (wfuel : ℕ) (st st1 : RunSt) (g1 : Bool) (e : ScrapeErr),
       pageLoop api nowIso startMs (startMs + windowMs) pageSize pfuel pageStart false st =
         (st1, g1, some e) →
       windowLoop api nowIso windowMs pageSize pageStart pfuel (wfuel + 1) startMs st =
         (st1, some e)) ∧
    (∀ (wfuel : ℕ) (maxMatches : Option ℕ) (hoursAhead : ℤ) (exhaust : Bool)
       (st1 : RunSt) (e : ScrapeErr),
       scrape_api_only api nowIso startMs maxMatches hoursAhead pageSize pageStart exhaust
         wfuel pfuel = (st1, some e) →
       e = ScrapeErr.outOfFuel ∨ ∃ r ∈ st1.log, faultyResp (api r)) := by
  refine ⟨?_, ?_, ?_⟩
  · intro fuel page gotAny st hf
    rcases hres : api ⟨startMs, endMs, pageSize, page⟩ with _ | ⟨status, body⟩
    · exact ⟨.requestRaised, by simp [pageLoop, hres], by simp⟩
    · rw [hres] at hf
      by_cases hst : status = 200
      · subst hst
        rcases hf with hf | hf | hf | ⟨code, data, hbe, hcode⟩
        · exact absurd rfl hf
        · subst hf
          exact ⟨.jsonDecode, by simp [pageLoop, hres], by simp⟩
        · subst hf
          exact ⟨.badEnvelope, by simp [pageLoop, hres], by simp⟩
        · subst hbe
          exact ⟨.badEnvelope, by simp [pageLoop, hres, hcode], by simp⟩
      · exact ⟨.httpStatus status, by simp [pageLoop, hres, hst], by simp⟩
  · intro wfuel st st1 g1 e hpl
    simp [windowLoop, hpl]
  · intro wfuel maxMatches hoursAhead exhaust st1 e h
    exact windowLoop_err_source api nowIso (hoursAhead * 3600 * 1000) pageSize pageStart pfuel
      wfuel startMs ⟨[], [], [], []⟩ st1 e h

theorem C9_error_propagation_witness :
    ∃ e, pageLoop (fun _ => HttpResult.raised) "T" 0 10 50 (0 + 1) 1 false ⟨[], [], [], []⟩ =
        ({ results := [], resultEvIds := [], seen := [],
           log := [] ++ [⟨0, 10, 50, 1⟩] }, false, some e) ∧
      e ≠ ScrapeErr.outOfFuel :=
  (C9_error_propagation (fun _ => HttpResult.raised) "T" 0 10 50 100 1 1).1 0 1 false
    ⟨[], [], [], []⟩ (by trivial)

/-- The dedup invariant of the run state: the seen-set is duplicate-free and
equals (as an insertion-ordered list) the non-empty upstream event ids of
the appended results. -/
def runInv (st : RunSt) : Prop :=
  st.seen.Nodup ∧ st.resultEvIds.filter (fun s => s ≠ "") = st.seen

theorem processEvent_inv (nowIso : String) (acc : RunSt × Bool) (ev : EventNode)
    (h : runInv acc.1) : runInv (processEvent nowIso acc ev).1 := by
  obtain ⟨hnd, hfil⟩ := h
  by_cases hskip : pyStrOrEmpty ev.eventId ≠ "" ∧ pyStrOrEmpty ev.eventId ∈ acc.1.seen
  · simp only [processEvent, if_pos hskip]
    exact ⟨hnd, hfil⟩
  · simp only [processEvent, if_neg hskip]
    simp only [ne_eq, decide_not] at hfil
    by_cases hne : pyStrOrEmpty ev.eventId = ""
    · refine ⟨by simpa [hne] using hnd, ?_⟩
      simp [hne, List.filter_append, hfil]
    · have hnotin : pyStrOrEmpty ev.eventId ∉ acc.1.seen := fun hmem => hskip ⟨hne, hmem⟩
      constructor
      · simp [hne, List.nodup_append, hnd, hnotin]
      · simp [hne, List.filter_append, hfil]

theorem foldl_processEvent_inv (nowIso : String) (items : List EventNode) :
    ∀ acc : RunSt × Bool, runInv acc.1 → runInv (items.foldl (processEvent nowIso) acc).1 := by
  induction items with
  | nil => intro acc h; exact h
  | cons ev items ih => intro acc h; exact ih _ (processEvent_inv nowIso acc ev h)

theorem pageLoop_inv (api : Oracle) (nowIso : String) (startMs endMs pageSize : ℤ) :
    ∀ (fuel : ℕ) (page : ℤ) (gotAny : Bool) (st : RunSt), runInv st →
      runInv (pageLoop api nowIso startMs endMs pageSize fuel page gotAny st).1 := by
  intro fuel
  induction fuel with
  | zero =>
    intro page gotAny st h
    simpa [pageLoop] using h
  | succ fuel ih =>
    intro page gotAny st h
    have hlog : runInv ({ st with log := st.log ++ [⟨startMs, endMs, pageSize, page⟩] } : RunSt) := h
    rcases hres : api ⟨startMs, endMs, pageSize, page⟩ with _ | ⟨status, body⟩
    · simpa [pageLoop, hres] using hlog
    · by_cases hst : status = 200
      · subst hst
        rcases body with _ | env
        · simpa [pageLoop, hres] using hlog
        · rcases env with _ | ⟨code, data⟩
          · simpa [pageLoop, hres] using hlog
          · by_cases hcode : code.pyStr = "200"
            · rcases data with _ | a
              · simpa [pageLoop, hres, hcode] using hlog
              · by_cases hitems : a.items = []
                · simpa [pageLoop, hres, hcode, hitems] using hlog
                · have hacc := foldl_processEvent_inv nowIso a.items
                    ({ st with log := st.log ++ [⟨startMs, endMs, pageSize, page⟩] }, gotAny) hlog
                  by_cases hpn : a.totalPages.getD 1 ≤ a.page.getD page
                  · simpa [pageLoop, hres, hcode, hitems, hpn] using hacc
                  · simp only [pageLoop, hres, if_neg (by omega : ¬ (200 : ℕ) ≠ 200),
                      if_neg (by simp [hcode] : ¬ code.pyStr ≠ "200"), if_neg hitems,
                      if_neg hpn]
                    exact ih _ _ _ hacc
            · simpa [pageLoop, hres, hcode] using hlog
      · simpa [pageLoop, hres, hst] using hlog

theorem windowLoop_inv (api : Oracle) (nowIso : String)
    (windowMs pageSize pageStart : ℤ) (pfuel : ℕ) :
    ∀ (wfuel : ℕ) (startMs : ℤ) (st : RunSt), runInv st →
      runInv (windowLoop api nowIso windowMs pageSize pageStart pfuel wfuel startMs st).1 := by
  intro wfuel
  induction wfuel with
  | zero =>
    intro startMs st h
    simpa [windowLoop] using h
  | succ wfuel ih =>
    intro startMs st h
    rcases hpl : pageLoop api nowIso startMs (startMs + windowMs) pageSize pfuel pageStart
        false st with ⟨stp, gp, ep⟩
    have hstp : runInv stp := by
      have := pageLoop_inv api nowIso startMs (startMs + windowMs) pageSize pfuel pageStart
        false st h
      rw [hpl] at this
      exact this
    rcases ep with _ | e0
    · by_cases hg : gp = true
      · simp only [windowLoop, hpl, hg, Bool.not_true, Bool.false_eq_true, if_false]
        exact ih _ _ hstp
      · have hg2 : gp = false := by
          cases gp
          · rfl
          · exact absurd rfl hg
        subst hg2
        simpa [windowLoop, hpl] using hstp
    · simpa [windowLoop, hpl] using hstp

/-- C5: in any run of `scrape_api_only`, over any upstream responses, no two
accumulated Fixture Records share the same (present) upstream event id: the
list of non-empty upstream event ids of the result sequence is
duplicate-free, so feeding the same id twice yields exactly one record. -/
theorem C5_dedup (api : Oracle) (nowIso : String) (startMs : ℤ) (maxMatches : Option ℕ)
    (hoursAhead pageSize pageNumStart : ℤ) (exhaust : Bool) (wfuel pfuel : ℕ) :
    ((scrape_api_only api nowIso startMs maxMatches hoursAhead pageSize pageNumStart exhaust
        wfuel pfuel).1.resultEvIds.filter (fun s => s ≠ "")).Nodup := by
  have h := windowLoop_inv api nowIso (hoursAhead * 3600 * 1000) pageSize pageNumStart pfuel
    wfuel startMs ⟨[], [], [], []⟩ ⟨List.nodup_nil, rfl⟩
  obtain ⟨hnd, hfil⟩ := h
  show ((windowLoop api nowIso (hoursAhead * 3600 * 1000) pageSize pageNumStart pfuel
      wfuel startMs ⟨[], [], [], []⟩).1.resultEvIds.filter (fun s => s ≠ "")).Nodup
  rw [hfil]
  exact hnd

theorem mlBranch_totals (nowIso : String) (st : ExtractSt) (c : Bool) (sels : List Selection) :
    (mlBranch nowIso st c sels).totalsLines = st.totalsLines ∧
    (mlBranch nowIso st c sels).handicapLines = st.handicapLines := by
  unfold mlBranch
  split_ifs <;> exact ⟨rfl, rfl⟩

theorem hcBranch_fields (st : ExtractSt) (sels : List Selection) :
    (hcBranch st sels).marketsOut = st.marketsOut ∧ (hcBranch st sels).mlDone = st.mlDone ∧
    (hcBranch st sels).totalsLines = st.totalsLines := by
  unfold hcBranch
  split_ifs <;> exact ⟨rfl, rfl, rfl⟩

theorem marketStep_not_main (nowIso : String) (st : ExtractSt) (m : Market)
    (h : is1x2Main (pyLower (pyStrOrEmpty m.name)) (pyLower (pyStrOrEmpty m.marketTypeId)) = false) :
    (marketStep nowIso st m).marketsOut = st.marketsOut ∧
    (marketStep nowIso st m).mlDone = st.mlDone := by
  simp only [marketStep, h, Bool.and_false, Bool.false_eq_true, if_false]
  split
  · exact ⟨rfl, rfl⟩
  · split
    · exact ⟨(hcBranch_fields st m.selections).1, (hcBranch_fields st m.selections).2.1⟩
    · exact ⟨rfl, rfl⟩

theorem marketStep_mlDone (nowIso : String) (st : ExtractSt) (m : Market)
    (h : st.mlDone = true) :
    (marketStep nowIso st m).marketsOut = st.marketsOut ∧
    (marketStep nowIso st m).mlDone = true := by
  simp only [marketStep, h, Bool.not_true, Bool.false_and, Bool.false_eq_true, if_false]
  split
  · exact ⟨rfl, rfl⟩
  · split
    · exact ⟨(hcBranch_fields st m.selections).1, ((hcBranch_fields st m.selections).2.1).trans h⟩
    · exact ⟨rfl, h⟩

theorem foldl_marketStep_mlDone (nowIso : String) (ms : List Market) :
    ∀ st : ExtractSt, st.mlDone = true →
      (ms.foldl (marketStep nowIso) st).marketsOut = st.marketsOut ∧
      (ms.foldl (marketStep nowIso) st).mlDone = true := by
  induction ms with
  | nil => exact fun st h => ⟨rfl, h⟩
  | cons m ms ih =>
    intro st h
    have h1 := marketStep_mlDone nowIso st m h
    have h2 := ih (marketStep nowIso st m) h1.2
    exact ⟨h2.1.trans h1.1, h2.2⟩

theorem foldl_marketStep_not_main (nowIso : String) (ms : List Market)
    (hms : ∀ m ∈ ms, is1x2Main (pyLower (pyStrOrEmpty m.name))
      (pyLower (pyStrOrEmpty m.marketTypeId)) = false) :
    ∀ st : ExtractSt,
      (ms.foldl (marketStep nowIso) st).marketsOut = st.marketsOut ∧
      (ms.foldl (marketStep nowIso) st).mlDone = st.mlDone := by
  induction ms with
  | nil => exact fun st => ⟨rfl, rfl⟩
  | cons m ms ih =>
    intro st
    have h1 := marketStep_not_main nowIso st m (hms m (List.mem_cons_self m ms))
    have h2 := ih (fun x hx => hms x (List.mem_cons_of_mem m hx)) (marketStep nowIso st m)
    exact ⟨h2.1.trans h1.1, h2.2.trans h1.2⟩

theorem extract_filter_ml (nowIso : String) (ev : EventNode) :
    (extract_markets_from_api nowIso ev).filter (fun b => b.bname == "ML") =
      ((ev.markets.foldl (marketStep nowIso) ⟨[], false, [], []⟩).marketsOut).filter
        (fun b => b.bname == "ML") := by
  simp only [extract_markets_from_api]
  split
  · split
    · simp [List.filter_append, Block.bname]
    · simp [List.filter_append, Block.bname]
  · split
    · simp [List.filter_append, Block.bname]
    · rfl

theorem mlBranch_empty_out (nowIso : String) (st : ExtractSt) (c : Bool)
    (sels : List Selection) (hout : st.marketsOut = []) (h d a : String)
    (hscan : mlScan sels = (some h, some d, some a)) (hh : h ≠ "") (hd : d ≠ "") (ha : a ≠ "") :
    (mlBranch nowIso st c sels).marketsOut = [Block.ml nowIso [⟨h, d, a⟩]] ∧
    (mlBranch nowIso st c sels).mlDone = true := by
  unfold mlBranch
  rw [hscan]
  simp [hout, hh, hd, ha, optTruthy]

/-- C3: moneyline precedence.  In this code a market matches as moneyline
only as the confirmed primary (`is_1x2_main` and `is_main_confirmed` are
assigned together), so a non-confirmed 1X2-shaped market never contributes
a block.  Hence for a fixture whose market list holds first any number of
non-matching (candidate) markets and then a confirmed-primary market with
three valid legs, the output carries exactly one `ML` block, equal to the
confirmed-primary one, regardless of what follows (later matches are
ignored once `ml_done` is set). -/
theorem C3_ml_precedence (nowIso : String) (ev : EventNode) (pre post : List Market)
    (conf : Market) (h d a : String)
    (hsplit : ev.markets = pre ++ conf :: post)
    (hpre : ∀ m ∈ pre, is1x2Main (pyLower (pyStrOrEmpty m.name))
      (pyLower (pyStrOrEmpty m.marketTypeId)) = false)
    (hconf : is1x2Main (pyLower (pyStrOrEmpty conf.name))
      (pyLower (pyStrOrEmpty conf.marketTypeId)) = true)
    (hscan : mlScan conf.selections = (some h, some d, some a))
    (hh : h ≠ "") (hd : d ≠ "") (ha : a ≠ "") :
    (extract_markets_from_api nowIso ev).filter (fun b => b.bname == "ML") =
      [Block.ml nowIso [⟨h, d, a⟩]] := by
  rw [extract_filter_ml, hsplit, List.foldl_append, List.foldl_cons]
  have hpre2 := foldl_marketStep_not_main nowIso pre hpre
    (⟨[], false, [], []⟩ : ExtractSt)
  have hstep : marketStep nowIso (pre.foldl (marketStep nowIso) ⟨[], false, [], []⟩) conf =
      mlBranch nowIso (pre.foldl (marketStep nowIso) ⟨[], false, [], []⟩)
        (is1x2Main (pyLower (pyStrOrEmpty conf.name)) (pyLower (pyStrOrEmpty conf.marketTypeId)))
        conf.selections := by
    simp only [marketStep, hconf, hpre2.2, Bool.not_false, Bool.true_and, if_true]
  rw [hstep]
  have hml := mlBranch_empty_out nowIso (pre.foldl (marketStep nowIso) ⟨[], false, [], []⟩)
    (is1x2Main (pyLower (pyStrOrEmpty conf.name)) (pyLower (pyStrOrEmpty conf.marketTypeId)))
    conf.selections hpre2.1 h d a hscan hh hd ha
  have hpost := foldl_marketStep_mlDone nowIso post
    (mlBranch nowIso (pre.foldl (marketStep nowIso) ⟨[], false, [], []⟩)
      (is1x2Main (pyLower (pyStrOrEmpty conf.name)) (pyLower (pyStrOrEmpty conf.marketTypeId)))
      conf.selections) hml.2
  rw [hpost.1, hml.1]
  simp [Block.bname]

/-- A concrete fixture for the C3 scenario: a non-confirmed 1X2-shaped
market (name `"1x2"`, no type code) followed by the confirmed primary
`"ft 1x2"` market. -/
def evC3 : EventNode := evOfMarkets
  [⟨.str "1X2", .none,
    [mkSel (.str "home") .none (.str "1,70"),
     mkSel (.str "tie") .none (.str "3.10"),
     mkSel (.str "away") .none (.str "5.00")]⟩,
   ⟨.str "FT 1X2", .none,
    [mkSel (.str "home") .none (.str "1,90"),
     mkSel (.str "tie") .none (.str "3.40"),
     mkSel (.str "away") .none (.float (mkRat 41 10))]⟩]

theorem C3_ml_precedence_witness :
    (extract_markets_from_api "T" evC3).filter (fun b => b.bname == "ML") =
      [Block.ml "T" [⟨"1.900", "3.400", "4.100"⟩]] :=
  C3_ml_precedence "T" evC3
    [⟨.str "1X2", .none,
      [mkSel (.str "home") .none (.str "1,70"),
       mkSel (.str "tie") .none (.str "3.10"),
       mkSel (.str "away") .none (.str "5.00")]⟩]
    []
    ⟨.str "FT 1X2", .none,
      [mkSel (.str "home") .none (.str "1,90"),
       mkSel (.str "tie") .none (.str "3.40"),
       mkSel (.str "away") .none (.float (mkRat 41 10))]⟩
    "1.900" "3.400" "4.100" rfl (by decide) (by decide) (by decide)
    (by decide) (by decide) (by decide)

theorem mlBranch_origin (nowIso : String) (st : ExtractSt) (c : Bool) (sels : List Selection)
    (b : Block) (hb : b ∈ (mlBranch nowIso st c sels).marketsOut) :
    b ∈ st.marketsOut ∨
      ∃ h d a, mlScan sels = (some h, some d, some a) ∧ h ≠ "" ∧ d ≠ "" ∧ a ≠ "" ∧
        b = Block.ml nowIso [⟨h, d, a⟩] := by
  have hsingle : optTruthy (mlScan sels).1 = true → optTruthy (mlScan sels).2.1 = true →
      optTruthy (mlScan sels).2.2 = true →
      b ∈ [Block.ml nowIso [⟨((mlScan sels).1).getD "", ((mlScan sels).2.1).getD "",
        ((mlScan sels).2.2).getD ""⟩]] →
      ∃ h d a, mlScan sels = (some h, some d, some a) ∧ h ≠ "" ∧ d ≠ "" ∧ a ≠ "" ∧
        b = Block.ml nowIso [⟨h, d, a⟩] := by
    intro ht1 ht2 ht3 hb1
    rcases (optTruthy_iff _).mp ht1 with ⟨h, hh1, hh2⟩
    rcases (optTruthy_iff _).mp ht2 with ⟨d, hd1, hd2⟩
    rcases (optTruthy_iff _).mp ht3 with ⟨a, ha1, ha2⟩
    refine ⟨h, d, a, Prod.ext hh1 (Prod.ext hd1 ha1), hh2, hd2, ha2, ?_⟩
    simp only [List.mem_singleton] at hb1
    rw [hb1, hh1, hd1, ha1]
    rfl
  unfold mlBranch at hb
  split_ifs at hb with h1 h2 h3
  · rcases List.mem_append.mp hb with hb1 | hb1
    · exact Or.inl (List.mem_of_mem_filter hb1)
    · exact Or.inr (hsingle h1.1 h1.2.1 h1.2.2 hb1)
  · rcases List.mem_append.mp hb with hb1 | hb1
    · exact Or.inl hb1
    · exact Or.inr (hsingle h1.1 h1.2.1 h1.2.2 hb1)
  · exact Or.inl hb
  · exact Or.inl hb

theorem marketStep_origin (nowIso : String) (st : ExtractSt) (m : Market) (b : Block)
    (hb : b ∈ (marketStep nowIso st m).marketsOut) :
    b ∈ st.marketsOut ∨
      (is1x2Main (pyLower (pyStrOrEmpty m.name)) (pyLower (pyStrOrEmpty m.marketTypeId)) = true ∧
       ∃ h d a, mlScan m.selections = (some h, some d, some a) ∧ h ≠ "" ∧ d ≠ "" ∧ a ≠ "" ∧
         b = Block.ml nowIso [⟨h, d, a⟩]) := by
  by_cases hg : (!st.mlDone &&
      is1x2Main (pyLower (pyStrOrEmpty m.name)) (pyLower (pyStrOrEmpty m.marketTypeId))) = true
  · have his : is1x2Main (pyLower (pyStrOrEmpty m.name))
        (pyLower (pyStrOrEmpty m.marketTypeId)) = true := by
      have h2 := hg
      simp only [Bool.and_eq_true] at h2
      exact h2.2
    simp only [marketStep, hg, if_true] at hb
    rcases mlBranch_origin nowIso st _ m.selections b hb with h1 | h1
    · exact Or.inl h1
    · exact Or.inr ⟨his, h1⟩
  · have hgf : (!st.mlDone &&
        is1x2Main (pyLower (pyStrOrEmpty m.name)) (pyLower (pyStrOrEmpty m.marketTypeId))) = false :=
      Bool.not_eq_true _ ▸ hg
    simp only [marketStep, hgf, Bool.false_eq_true, if_false] at hb
    split at hb
    · exact Or.inl hb
    · split at hb
      · have := (hcBranch_fields st m.selections).1
        rw [this] at hb
        exact Or.inl hb
      · exact Or.inl hb

theorem foldl_marketStep_origin (nowIso : String) (ms : List Market) :
    ∀ (st : ExtractSt) (b : Block), b ∈ (ms.foldl (marketStep nowIso) st).marketsOut →
      b ∈ st.marketsOut ∨
        ∃ m ∈ ms,
          is1x2Main (pyLower (pyStrOrEmpty m.name)) (pyLower (pyStrOrEmpty m.marketTypeId)) = true ∧
          ∃ h d a, mlScan m.selections = (some h, some d, some a) ∧ h ≠ "" ∧ d ≠ "" ∧ a ≠ "" ∧
            b = Block.ml nowIso [⟨h, d, a⟩] := by
  induction ms with
  | nil => exact fun st b hb => Or.inl hb
  | cons m ms ih =>
    intro st b hb
    rcases ih (marketStep nowIso st m) b hb with h1 | ⟨m1, hm1, h2⟩
    · rcases marketStep_origin nowIso st m b h1 with h2 | ⟨his, h3⟩
      · exact Or.inl h2
      · exact Or.inr ⟨m, List.mem_cons_self m ms, his, h3⟩
    · exact Or.inr ⟨m1, List.mem_cons_of_mem m hm1, h2⟩

/-- C7: moneyline completeness.  Every `ML` block in the output of
`extract_markets_from_api` stems from a matched primary 1X2 market whose
scan resolved all three legs (home, draw, away) to truthy prices, and the
block carries exactly one odds entry holding those three legs.  In
particular a candidate whose draw leg is missing or unparseable is never
emitted. -/
theorem C7_ml_completeness (nowIso : String) (ev : EventNode) (b : Block)
    (hb : b ∈ extract_markets_from_api nowIso ev) (hname : b.bname = "ML") :
    ∃ m ∈ ev.markets,
      is1x2Main (pyLower (pyStrOrEmpty m.name)) (pyLower (pyStrOrEmpty m.marketTypeId)) = true ∧
      ∃ h d a, mlScan m.selections = (some h, some d, some a) ∧ h ≠ "" ∧ d ≠ "" ∧ a ≠ "" ∧
        b = Block.ml nowIso [⟨h, d, a⟩] := by
  have hb2 : b ∈ (extract_markets_from_api nowIso ev).filter (fun b => b.bname == "ML") :=
    List.mem_filter.mpr ⟨hb, by simp [hname]⟩
  rw [extract_filter_ml] at hb2
  have hb3 := List.mem_of_mem_filter hb2
  rcases foldl_marketStep_origin nowIso ev.markets ⟨[], false, [], []⟩ b hb3 with h1 | h1
  · simp at h1
  · exact h1

theorem C7_ml_completeness_witness :
    ∃ m ∈ evC3.markets,
      is1x2Main (pyLower (pyStrOrEmpty m.name)) (pyLower (pyStrOrEmpty m.marketTypeId)) = true ∧
      ∃ h d a, mlScan m.selections = (some h, some d, some a) ∧ h ≠ "" ∧ d ≠ "" ∧ a ≠ "" ∧
        Block.ml "T" [⟨"1.900", "3.400", "4.100"⟩] = Block.ml "T" [⟨h, d, a⟩] :=
  C7_ml_completeness "T" evC3 (Block.ml "T" [⟨"1.900", "3.400", "4.100"⟩]) (by decide) rfl

theorem assocSetdefaultThen_prop {α : Type} (P : ℚ → α → Prop) (k : ℚ) (dflt : α) (upd : α → α)
    (hd : P k (upd dflt)) (hu : ∀ v, P k v → P k (upd v)) :
    ∀ l : List (ℚ × α), (∀ p ∈ l, P p.1 p.2) →
      ∀ p ∈ assocSetdefaultThen k dflt upd l, P p.1 p.2 := by
  intro l
  induction l with
  | nil =>
    intro _ p hp
    simp only [assocSetdefaultThen, List.mem_singleton] at hp
    rw [hp]
    exact hd
  | cons q l ih =>
    rcases q with ⟨k1, v⟩
    intro hl p hp
    by_cases h : k1 = k
    · subst h
      simp only [assocSetdefaultThen, if_pos rfl] at hp
      rcases List.mem_cons.mp hp with rfl | hp
      · exact hu v (hl (k1, v) (List.mem_cons_self _ _))
      · exact hl p (List.mem_cons_of_mem _ hp)
    · simp only [assocSetdefaultThen, if_neg h, List.mem_cons] at hp
      rcases hp with rfl | hp
      · exact hl (k1, v) (List.mem_cons_self _ _)
      · exact ih (fun q hq => hl q (List.mem_cons_of_mem _ hq)) p hp

theorem assocSetdefaultThen_keys {α : Type} (k : ℚ) (dflt : α) (upd : α → α) :
    ∀ l : List (ℚ × α),
      (assocSetdefaultThen k dflt upd l).map Prod.fst =
        if k ∈ l.map Prod.fst then l.map Prod.fst else l.map Prod.fst ++ [k] := by
  intro l
  induction l with
  | nil => simp [assocSetdefaultThen]
  | cons q l ih =>
    rcases q with ⟨k1, v⟩
    by_cases h : k1 = k
    · subst h
      simp [assocSetdefaultThen]
    · have hne : ¬ k = k1 := fun he => h he.symm
      by_cases hk : k ∈ l.map Prod.fst
      · simp [assocSetdefaultThen, h, ih, hk, hne]
      · simp [assocSetdefaultThen, h, ih, hk, hne]

theorem assocSetdefaultThen_nodup {α : Type} (k : ℚ) (dflt : α) (upd : α → α)
    (l : List (ℚ × α)) (h : (l.map Prod.fst).Nodup) :
    ((assocSetdefaultThen k dflt upd l).map Prod.fst).Nodup := by
  rw [assocSetdefaultThen_keys]
  split_ifs with hk
  · exact h
  · simp [List.nodup_append, h, hk]

theorem assocSet_prop {α : Type} (P : ℚ → α → Prop) (k : ℚ) (v0 : α) (hv : P k v0) :
    ∀ l : List (ℚ × α), (∀ p ∈ l, P p.1 p.2) → ∀ p ∈ assocSet k v0 l, P p.1 p.2 := by
  intro l
  induction l with
  | nil =>
    intro _ p hp
    simp only [assocSet, List.mem_singleton] at hp
    rw [hp]
    exact hv
  | cons q l ih =>
    rcases q with ⟨k1, w⟩
    intro hl p hp
    by_cases h : k1 = k
    · subst h
      simp only [assocSet, if_pos rfl] at hp
      rcases List.mem_cons.mp hp with rfl | hp
      · exact hv
      · exact hl p (List.mem_cons_of_mem _ hp)
    · simp only [assocSet, if_neg h, List.mem_cons] at hp
      rcases hp with rfl | hp
      · exact hl (k1, w) (List.mem_cons_self _ _)
      · exact ih (fun q hq => hl q (List.mem_cons_of_mem _ hq)) p hp

theorem assocSet_keys {α : Type} (k : ℚ) (v0 : α) :
    ∀ l : List (ℚ × α),
      (assocSet k v0 l).map Prod.fst =
        if k ∈ l.map Prod.fst then l.map Prod.fst else l.map Prod.fst ++ [k] := by
  intro l
  induction l with
  | nil => simp [assocSet]
  | cons q l ih =>
    rcases q with ⟨k1, w⟩
    by_cases h : k1 = k
    · subst h
      simp [assocSet]
    · have hne : ¬ k = k1 := fun he => h he.symm
      by_cases hk : k ∈ l.map Prod.fst
      · simp [assocSet, h, ih, hk, hne]
      · simp [assocSet, h, ih, hk, hne]

theorem assocSet_nodup {α : Type} (k : ℚ) (v0 : α) (l : List (ℚ × α))
    (h : (l.map Prod.fst).Nodup) : ((assocSet k v0 l).map Prod.fst).Nodup := by
  rw [assocSet_keys]
  split_ifs with hk
  · exact h
  · simp [List.nodup_append, h, hk]

/-- Invariant of the totals dict: keys are distinct and each stored record's
`hdp` equals its key. -/
def linesInvT (l : List (ℚ × TotalsRec)) : Prop :=
  (l.map Prod.fst).Nodup ∧ ∀ p ∈ l, (p.2).hdp = p.1

/-- Invariant of the handicap dict: keys are distinct, each stored record's
`hdp` equals its key, and both legs carry non-empty price strings. -/
def linesInvH (l : List (ℚ × HcRec)) : Prop :=
  (l.map Prod.fst).Nodup ∧ ∀ p ∈ l, (p.2).hdp = p.1 ∧ (p.2).home ≠ "" ∧ (p.2).away ≠ ""

theorem totalsSelStep_inv (l : List (ℚ × TotalsRec)) (s : Selection) (h : linesInvT l) :
    linesInvT (totalsSelStep l s) := by
  simp only [totalsSelStep]
  split
  · exact h
  · split_ifs with hp h1 h2
    · exact h
    · refine ⟨assocSetdefaultThen_nodup _ _ _ _ h.1,
        assocSetdefaultThen_prop (fun (k : ℚ) (v : TotalsRec) => v.hdp = k) _ _ _ ?_ ?_ _ h.2⟩
      · rfl
      · exact fun v hv => hv
    · refine ⟨assocSetdefaultThen_nodup _ _ _ _ h.1,
        assocSetdefaultThen_prop (fun (k : ℚ) (v : TotalsRec) => v.hdp = k) _ _ _ ?_ ?_ _ h.2⟩
      · rfl
      · exact fun v hv => hv
    · refine ⟨assocSetdefaultThen_nodup _ _ _ _ h.1,
        assocSetdefaultThen_prop (fun (k : ℚ) (v : TotalsRec) => v.hdp = k) _ _ _ ?_ ?_ _ h.2⟩
      · rfl
      · exact fun v hv => hv

theorem foldl_totalsSelStep_inv (sels : List Selection) :
    ∀ l, linesInvT l → linesInvT (sels.foldl totalsSelStep l) := by
  induction sels with
  | nil => exact fun l h => h
  | cons s sels ih => exact fun l h => ih _ (totalsSelStep_inv l s h)

theorem hcBranch_inv (st : ExtractSt) (sels : List Selection)
    (h : linesInvH st.handicapLines) : linesInvH (hcBranch st sels).handicapLines := by
  unfold hcBranch
  split_ifs with hc
  · obtain ⟨-, -, hpr, hapr⟩ := hc
    rcases (optTruthy_iff _).mp hpr with ⟨s1, hs1, hs1n⟩
    rcases (optTruthy_iff _).mp hapr with ⟨s2, hs2, hs2n⟩
    dsimp only
    refine ⟨assocSet_nodup _ _ _ h.1, ?_⟩
    apply assocSet_prop (fun (k : ℚ) (v : HcRec) => v.hdp = k ∧ v.home ≠ "" ∧ v.away ≠ "")
    · refine ⟨rfl, ?_, ?_⟩
      · rw [hs1]
        simpa using hs1n
      · rw [hs2]
        simpa using hs2n
    · exact h.2
  · exact h

theorem marketStep_lines_inv (nowIso : String) (st : ExtractSt) (m : Market)
    (hT : linesInvT st.totalsLines) (hH : linesInvH st.handicapLines) :
    linesInvT (marketStep nowIso st m).totalsLines ∧
    linesInvH (marketStep nowIso st m).handicapLines := by
  simp only [marketStep]
  split_ifs with h1 h2 h3
  · exact ⟨(mlBranch_totals nowIso st _ m.selections).1.symm ▸ hT,
      (mlBranch_totals nowIso st _ m.selections).2.symm ▸ hH⟩
  · exact ⟨foldl_totalsSelStep_inv m.selections st.totalsLines hT, hH⟩
  · exact ⟨(hcBranch_fields st m.selections).2.2.symm ▸ hT, hcBranch_inv st m.selections hH⟩
  · exact ⟨hT, hH⟩

theorem foldl_marketStep_lines_inv (nowIso : String) (ms : List Market) :
    ∀ st : ExtractSt, linesInvT st.totalsLines → linesInvH st.handicapLines →
      linesInvT ((ms.foldl (marketStep nowIso) st).totalsLines) ∧
      linesInvH ((ms.foldl (marketStep nowIso) st).handicapLines) := by
  induction ms with
  | nil => exact fun st hT hH => ⟨hT, hH⟩
  | cons m ms ih =>
    intro st hT hH
    have h1 := marketStep_lines_inv nowIso st m hT hH
    exact ih (marketStep nowIso st m) h1.1 h1.2

theorem extract_marketsOut_ml (nowIso : String) (ev : EventNode) :
    ∀ b ∈ ((ev.markets.foldl (marketStep nowIso) ⟨[], false, [], []⟩).marketsOut),
      b.bname = "ML" := by
  intro b hb
  rcases foldl_marketStep_origin nowIso ev.markets ⟨[], false, [], []⟩ b hb with
    h1 | ⟨m, -, -, h, d, a, -, -, -, -, hbe⟩
  · simp at h1
  · rw [hbe]
    rfl

instance : IsTotal TotalsRec hdpLeT := ⟨fun a b => le_total a.hdp b.hdp⟩

instance : IsTrans TotalsRec hdpLeT := ⟨fun _ _ _ h1 h2 => le_trans h1 h2⟩

instance : IsTotal HcRec hdpLeH := ⟨fun a b => le_total a.hdp b.hdp⟩

instance : IsTrans HcRec hdpLeH := ⟨fun _ _ _ h1 h2 => le_trans h1 h2⟩

theorem sorted_strict_T (l : List TotalsRec) (hnd : (l.map (fun r => r.hdp)).Nodup) :
    (List.insertionSort hdpLeT l).Pairwise (fun x y => x.hdp < y.hdp) := by
  have hs : List.Sorted hdpLeT (List.insertionSort hdpLeT l) := List.sorted_insertionSort hdpLeT l
  have hperm := List.perm_insertionSort hdpLeT l
  have hnd2 : ((List.insertionSort hdpLeT l).map (fun r => r.hdp)).Nodup :=
    ((hperm.map (fun r => r.hdp)).symm).nodup hnd
  have hne : (List.insertionSort hdpLeT l).Pairwise (fun x y => x.hdp ≠ y.hdp) :=
    List.pairwise_map.mp hnd2
  exact (List.Pairwise.and hs hne).imp (fun hp => lt_of_le_of_ne hp.1 hp.2)

theorem sorted_strict_H (l : List HcRec) (hnd : (l.map (fun r => r.hdp)).Nodup) :
    (List.insertionSort hdpLeH l).Pairwise (fun x y => x.hdp < y.hdp) := by
  have hs : List.Sorted hdpLeH (List.insertionSort hdpLeH l) := List.sorted_insertionSort hdpLeH l
  have hperm := List.perm_insertionSort hdpLeH l
  have hnd2 : ((List.insertionSort hdpLeH l).map (fun r => r.hdp)).Nodup :=
    ((hperm.map (fun r => r.hdp)).symm).nodup hnd
  have hne : (List.insertionSort hdpLeH l).Pairwise (fun x y => x.hdp ≠ y.hdp) :=
    List.pairwise_map.mp hnd2
  exact (List.Pairwise.and hs hne).imp (fun hp => lt_of_le_of_ne hp.1 hp.2)

/-- The accumulator state after the market loop of `extract_markets_from_api`. -/
def extractFoldSt (nowIso : String) (ev : EventNode) : ExtractSt :=
  ev.markets.foldl (marketStep nowIso) ⟨[], false, [], []⟩

/-- The surviving totals lines (both legs priced) of a fixture. -/
def totalsOutOf (nowIso : String) (ev : EventNode) : List TotalsRec :=
  ((extractFoldSt nowIso ev).totalsLines.map Prod.snd).filter
    (fun v => optTruthy v.over && optTruthy v.under)

/-- The output list before the handicap block is appended. -/
def extractOut1 (nowIso : String) (ev : EventNode) : List Block :=
  if totalsOutOf nowIso ev ≠ [] then
    (extractFoldSt nowIso ev).marketsOut ++
      [Block.totals nowIso (List.insertionSort hdpLeT (totalsOutOf nowIso ev))]
  else (extractFoldSt nowIso ev).marketsOut

theorem extract_eq (nowIso : String) (ev : EventNode) :
    extract_markets_from_api nowIso ev =
      if (extractFoldSt nowIso ev).handicapLines ≠ [] then
        extractOut1 nowIso ev ++
          [Block.handicap nowIso
            (List.insertionSort hdpLeH ((extractFoldSt nowIso ev).handicapLines.map Prod.snd))]
      else extractOut1 nowIso ev := rfl

theorem extract_totals_block (nowIso : String) (ev : EventNode) (u : String)
    (odds : List TotalsRec) (hb : Block.totals u odds ∈ extract_markets_from_api nowIso ev) :
    odds = List.insertionSort hdpLeT (totalsOutOf nowIso ev) := by
  rw [extract_eq] at hb
  have hml := extract_marketsOut_ml nowIso ev
  split_ifs at hb with h1
  · rcases List.mem_append.mp hb with hb1 | hb1
    · unfold extractOut1 at hb1
      split_ifs at hb1 with h2
      · rcases List.mem_append.mp hb1 with hb2 | hb2
        · exact absurd (hml _ hb2) (by simp [Block.bname])
        · simp only [List.mem_singleton, Block.totals.injEq] at hb2
          exact hb2.2
      · exact absurd (hml _ hb1) (by simp [Block.bname])
    · simp at hb1
  · unfold extractOut1 at hb
    split_ifs at hb with h2
    · rcases List.mem_append.mp hb with hb2 | hb2
      · exact absurd (hml _ hb2) (by simp [Block.bname])
      · simp only [List.mem_singleton, Block.totals.injEq] at hb2
        exact hb2.2
    · exact absurd (hml _ hb) (by simp [Block.bname])

theorem extract_handicap_block (nowIso : String) (ev : EventNode) (u : String)
    (odds : List HcRec) (hb : Block.handicap u odds ∈ extract_markets_from_api nowIso ev) :
    odds = List.insertionSort hdpLeH ((extractFoldSt nowIso ev).handicapLines.map Prod.snd) := by
  rw [extract_eq] at hb
  have hml := extract_marketsOut_ml nowIso ev
  have hnot1 : Block.handicap u odds ∉ extractOut1 nowIso ev := by
    intro hb1
    unfold extractOut1 at hb1
    split_ifs at hb1 with h2
    · rcases List.mem_append.mp hb1 with hb2 | hb2
      · exact absurd (hml _ hb2) (by simp [Block.bname])
      · simp at hb2
    · exact absurd (hml _ hb1) (by simp [Block.bname])
  split_ifs at hb with h1
  · rcases List.mem_append.mp hb with hb1 | hb1
    · exact absurd hb1 hnot1
    · simp only [List.mem_singleton, Block.handicap.injEq] at hb1
      exact hb1.2
  · exact absurd hb hnot1

/-- C6: every emitted `Totals` block and `Handicap` block holds one entry
per distinct handicap line (entry `hdp` values are strictly increasing,
hence distinct and sorted ascending), and every entry carries both legs:
a surviving totals line has truthy over and under prices, and a surviving
handicap line has non-empty home and away prices.  A line with only one
priced leg never appears. -/
theorem C6_lines_sorted (nowIso : String) (ev : EventNode) (b : Block)
    (hb : b ∈ extract_markets_from_api nowIso ev) :
    (∀ u odds, b = Block.totals u odds →
       odds.Pairwise (fun x y => x.hdp < y.hdp) ∧
       ∀ r ∈ odds, (∃ s, r.over = some s ∧ s ≠ "") ∧ ∃ s, r.under = some s ∧ s ≠ "") ∧
    (∀ u odds, b = Block.handicap u odds →
       odds.Pairwise (fun x y => x.hdp < y.hdp) ∧ ∀ r ∈ odds, r.home ≠ "" ∧ r.away ≠ "") := by
  have hinv := foldl_marketStep_lines_inv nowIso ev.markets ⟨[], false, [], []⟩
    ⟨List.nodup_nil, by simp⟩ ⟨List.nodup_nil, by simp⟩
  have hinvT : linesInvT ((extractFoldSt nowIso ev).totalsLines) := hinv.1
  have hinvH : linesInvH ((extractFoldSt nowIso ev).handicapLines) := hinv.2
  constructor
  · intro u odds hbe
    subst hbe
    have hodds := extract_totals_block nowIso ev u odds hb
    have heq : ((extractFoldSt nowIso ev).totalsLines.map Prod.snd).map (fun r => r.hdp) =
        (extractFoldSt nowIso ev).totalsLines.map Prod.fst := by
      rw [List.map_map]
      exact List.map_congr_left (fun p hp => hinvT.2 p hp)
    have hsub : ((totalsOutOf nowIso ev).map (fun r => r.hdp)).Sublist
        (((extractFoldSt nowIso ev).totalsLines.map Prod.snd).map (fun r => r.hdp)) :=
      (List.filter_sublist _).map _
    rw [heq] at hsub
    have hnd : ((totalsOutOf nowIso ev).map (fun r => r.hdp)).Nodup :=
      List.Nodup.sublist hsub hinvT.1
    refine ⟨hodds ▸ sorted_strict_T _ hnd, ?_⟩
    intro r hr
    rw [hodds] at hr
    have hr2 : r ∈ totalsOutOf nowIso ev :=
      (List.perm_insertionSort hdpLeT _).mem_iff.mp hr
    have hpred := List.of_mem_filter hr2
    simp only [Bool.and_eq_true] at hpred
    exact ⟨(optTruthy_iff _).mp hpred.1, (optTruthy_iff _).mp hpred.2⟩
  · intro u odds hbe
    subst hbe
    have hodds := extract_handicap_block nowIso ev u odds hb
    have heq : ((extractFoldSt nowIso ev).handicapLines.map Prod.snd).map (fun r => r.hdp) =
        (extractFoldSt nowIso ev).handicapLines.map Prod.fst := by
      rw [List.map_map]
      exact List.map_congr_left (fun p hp => (hinvH.2 p hp).1)
    have hnd : (((extractFoldSt nowIso ev).handicapLines.map Prod.snd).map
        (fun r => r.hdp)).Nodup := heq ▸ hinvH.1
    refine ⟨hodds ▸ sorted_strict_H _ hnd, ?_⟩
    intro r hr
    rw [hodds] at hr
    have hr2 : r ∈ (extractFoldSt nowIso ev).handicapLines.map Prod.snd :=
      (List.perm_insertionSort hdpLeH _).mem_iff.mp hr
    rcases List.mem_map.mp hr2 with ⟨p, hp, rfl⟩
    exact ⟨(hinvH.2 p hp).2.1, (hinvH.2 p hp).2.2⟩

/-- A concrete fixture with a totals market carrying two lines (entered out
of order) and a handicap market. -/
def evC6 : EventNode := evOfMarkets
  [⟨.str "FT O/U", .none,
    [mkSel (.str "Over") (.str "3.5") (.float (mkRat 23 10)),
     mkSel (.str "Under") (.str "3.5") (.float (mkRat 8 5)),
     mkSel (.str "Over") (.str "2.5") (.float (mkRat 37 20)),
     mkSel (.str "Under") (.float (mkRat 5 2)) (.float (mkRat 39 20))]⟩,
   ⟨.str "FT Asian Handicap", .none,
    [mkSel (.str "home") (.str "−0.5") (.str "1,90"),
     mkSel (.str "away") (.str "0.5") (.str "2.00")]⟩]

theorem C6_lines_sorted_witness :
    ([(⟨mkRat 5 2, some "1.850", some "1.950"⟩ : TotalsRec),
      ⟨mkRat 7 2, some "2.300", some "1.600"⟩].Pairwise (fun x y => x.hdp < y.hdp) ∧
     ∀ r ∈ [(⟨mkRat 5 2, some "1.850", some "1.950"⟩ : TotalsRec),
       ⟨mkRat 7 2, some "2.300", some "1.600"⟩],
       (∃ s, r.over = some s ∧ s ≠ "") ∧ ∃ s, r.under = some s ∧ s ≠ "") :=
  (C6_lines_sorted "T" evC6
    (Block.totals "T"
      [⟨mkRat 5 2, some "1.850", some "1.950"⟩, ⟨mkRat 7 2, some "2.300", some "1.600"⟩])
    (by decide)).1 "T"
    [⟨mkRat 5 2, some "1.850", some "1.950"⟩, ⟨mkRat 7 2, some "2.300", some "1.600"⟩] rfl
